import Mathlib

/-!
# carbon-relay-ng: the per-destination transport engine

A shallow embedding of `destination.go` (the `relay` event loop, its two
closures `nonBlockingSend` and `nonBlockingSpool`, the `updateConn` and
`collectRedo` tasks, `QueueWriter`, `Flush`, `NewDestination`, `addrToPath`),
of `spool.go` (`Spool.Writer`, `Spool.Ingest`), of `metrics_wrapper.go`
(`expandKey`, `Counter`) and of `route_grafananet.go` (`NewRouteGrafanaNet`,
`parseMetric`), followed by the properties proved about them.

Conventions of the embedding.

* A Go `[]byte` is a `List UInt8`.
* A `*Conn` is an `Option Conn`; `Conn.id` stands for the pointer identity.
  The connection itself (`conn.go`) is not modelled: a `Conn` carries exactly
  what `relay` observes of it, namely the answer of `isAlive()`, whether a send
  on `conn.In` can complete at once, the answer of `Flush()` and of `getRedo()`.
* `metrics.Counter` values are integers; `Inc(1)` adds one.
* A channel send inside `select { case ch <- v: ... default: ... }` succeeds
  exactly when the channel can take a value at once; the number of sends a
  channel can take at once is kept in the state (`inFree`, `queueInRTFree`).
* What the loop does to the outside (sends, replies, goroutines it starts) is
  returned as a list of `Effect`s.
* `log.*` calls and the `fmt.Fprintln(os.Stderr, err)` line are left out.
-/

namespace CarbonRelay

/-- One metric line, a Go byte slice. -/
abbrev Record := List UInt8

/-- What `relay` and `collectRedo` observe of a `*Conn`. -/
structure Conn where
  /-- pointer identity -/
  id : Nat
  /-- the answer of `conn.isAlive()` -/
  alive : Bool
  /-- how many sends on `conn.In` can complete without blocking -/
  inFree : Nat
  /-- the answer of `conn.Flush()`; `none` is the nil error -/
  flushResult : Option String
  /-- the answer of `conn.getRedo()` -/
  redo : List Record
  deriving DecidableEq, Repr

/-- The two functions `nonBlockingSend` calls when `Pickle` is set; they are
defined elsewhere in the repository and are taken as parameters here. -/
structure Codec where
  DataPoint : Type
  parseDataPoint : Record → Except String DataPoint
  pickle : DataPoint → Record

/-- The fields of `Destination` that the engine reads or writes. -/
structure Destination where
  Addr : String
  Spool : Bool
  Pickle : Bool
  Online : Bool
  SlowNow : Bool
  SlowLastLoop : Bool
  cleanAddr : String
  /-- how many sends on `dest.queueInRT` can complete without blocking -/
  queueInRTFree : Nat
  numDropNoConnNoSpool : Int
  numSpool : Int
  numDropSlowSpool : Int
  numDropSlowConn : Int
  numDropBadPickle : Int
  numBuffered : Int
  deriving DecidableEq, Repr

/-- What the engine does to the outside world. -/
inductive Effect where
  /-- The send `conn.In <- payload` was tried on connection `conn`; `accepted` tells
  whether the send case or the `default` case ran -/
  | offerConnIn (conn : Nat) (payload : Record) (accepted : Bool)
  /-- The send `dest.queueInRT <- payload` was tried -/
  | offerQueueInRT (payload : Record) (accepted : Bool)
  /-- The statement `go dest.updateConn(addr)` -/
  | goUpdateConn (addr : String)
  /-- The statement `go dest.collectRedo(conn)` -/
  | goCollectRedo (conn : Nat)
  /-- The send `dest.flushErr <- err` -/
  | flushErr (err : Option String)
  /-- A call of `conn.Flush()` -/
  | connFlush (conn : Nat)
  /-- A call of `conn.Close()` -/
  | connClose (conn : Nat)
  deriving DecidableEq, Repr

/-- The `relay` goroutine: the destination it owns and its local variables. -/
structure Relay where
  dest : Destination
  /-- The local `var conn *Conn` -/
  conn : Option Conn
  /-- whether `toUnspool` is a non-nil channel -/
  toUnspool : Bool
  numConnUpdates : Int
  /-- set once `relay` has returned -/
  returned : Bool
  deriving DecidableEq, Repr

/-- The branches of the `select` in `relay`, with the value received. -/
inductive Event where
  | inConnUpdate (b : Bool)
  | connUpdates (c : Option Conn)
  | tick
  | flush
  | shutdown
  | unspool (buf : Record)
  | ingress (buf : Record)
  deriving DecidableEq, Repr

/-- The closure `nonBlockingSend` of `relay`, with the captured `dest` and
`conn` passed explicitly. -/
def nonBlockingSend (cd : Codec) (d : Destination) (conn : Conn) (buf : Record) :
    Destination × Conn × List Effect :=
  let send (d : Destination) (buf : Record) : Destination × Conn × List Effect :=
    if 0 < conn.inFree then
      ({ d with numBuffered := d.numBuffered + 1 },
       { conn with inFree := conn.inFree - 1 },
       [Effect.offerConnIn conn.id buf true])
    else
      ({ d with numDropSlowConn := d.numDropSlowConn + 1, SlowNow := true },
       conn,
       [Effect.offerConnIn conn.id buf false])
  if d.Pickle then
    match cd.parseDataPoint buf with
    | Except.error _ => ({ d with numDropBadPickle := d.numDropBadPickle + 1 }, conn, [])
    | Except.ok dp => send d (cd.pickle dp)
  else
    send d buf

/-- The closure `nonBlockingSpool` of `relay`. -/
def nonBlockingSpool (d : Destination) (buf : Record) : Destination × List Effect :=
  if 0 < d.queueInRTFree then
    ({ d with numSpool := d.numSpool + 1, queueInRTFree := d.queueInRTFree - 1 },
     [Effect.offerQueueInRT buf true])
  else
    ({ d with numDropSlowSpool := d.numDropSlowSpool + 1 },
     [Effect.offerQueueInRT buf false])

/-- Lines 305-312 of `relay`: a connection that is no longer alive is dropped,
and a redo collector is started for it when spooling is on. -/
def detachDead (r : Relay) : Relay × List Effect :=
  match r.conn with
  | some c =>
    if !c.alive then
      ({ r with conn := none }, if r.dest.Spool then [Effect.goCollectRedo c.id] else [])
    else
      (r, [])
  | none => (r, [])

/-- Lines 313-318 of `relay`: `toUnspool` is the spool's read channel or nil. -/
def setToUnspool (r : Relay) : Relay :=
  if r.conn.isSome && r.dest.Spool && !r.dest.SlowLastLoop && !r.dest.SlowNow then
    { r with toUnspool := true }
  else
    { r with toUnspool := false }

/-- Everything `relay` does in one iteration before it enters the `select`. -/
def preamble (r : Relay) : Relay × List Effect :=
  let (r1, eff) := detachDead r
  (setToUnspool r1, eff)

/-- The branch `case inConnUpdate := <-dest.inConnUpdate`. -/
def onInConnUpdate (r : Relay) (b : Bool) : Relay × List Effect :=
  if b then
    ({ r with numConnUpdates := r.numConnUpdates + 1 }, [])
  else
    ({ r with numConnUpdates := r.numConnUpdates - 1 }, [])

/-- The branch `case conn = <-dest.connUpdates`. -/
def onConnUpdates (r : Relay) (c : Option Conn) : Relay × List Effect :=
  let d1 := { r.dest with Online := c.isSome }
  let d2 := if d1.Online then { d1 with SlowLastLoop := false, SlowNow := false } else d1
  ({ r with conn := c, dest := d2 }, [])

/-- The branch `case <-ticker.C`. -/
def onTick (r : Relay) : Relay × List Effect :=
  let eff := if r.conn.isNone && r.numConnUpdates == 0
    then [Effect.goUpdateConn r.dest.Addr] else []
  let d1 := { r.dest with SlowLastLoop := r.dest.SlowNow }
  let d2 := { d1 with SlowNow := false }
  ({ r with dest := d2 }, eff)

/-- The branch `case <-dest.flush`. -/
def onFlush (r : Relay) : Relay × List Effect :=
  match r.conn with
  | some c => (r, [Effect.connFlush c.id, Effect.flushErr c.flushResult])
  | none => (r, [Effect.flushErr none])

/-- The branch `case <-dest.shutdown`. -/
def onShutdown (r : Relay) : Relay × List Effect :=
  match r.conn with
  | some c => ({ r with returned := true }, [Effect.connFlush c.id, Effect.connClose c.id])
  | none => ({ r with returned := true }, [])

/-- The branch `case buf := <-toUnspool`.  A receive from a nil channel never completes,
so the branch exists only while `toUnspool` is set; `nonBlockingSend` then
dereferences `conn`. -/
def onUnspool (cd : Codec) (r : Relay) (buf : Record) : Option (Relay × List Effect) :=
  if r.toUnspool then
    match r.conn with
    | some c =>
      let (d, c1, eff) := nonBlockingSend cd r.dest c buf
      some ({ r with dest := d, conn := some c1 }, eff)
    | none => none
  else
    none

/-- The branch `case buf := <-dest.in`. -/
def onIngress (cd : Codec) (r : Relay) (buf : Record) : Relay × List Effect :=
  match r.conn with
  | some c =>
    let (d, c1, eff) := nonBlockingSend cd r.dest c buf
    ({ r with dest := d, conn := some c1 }, eff)
  | none =>
    if r.dest.Spool then
      let (d, eff) := nonBlockingSpool r.dest buf
      ({ r with dest := d }, eff)
    else
      ({ r with dest := { r.dest with numDropNoConnNoSpool := r.dest.numDropNoConnNoSpool + 1 } }, [])

/-- The `select` of `relay`: the handler of the branch that received.  `none`
when the branch cannot be taken. -/
def handle (cd : Codec) (r : Relay) : Event → Option (Relay × List Effect)
  | Event.inConnUpdate b => some (onInConnUpdate r b)
  | Event.connUpdates c => some (onConnUpdates r c)
  | Event.tick => some (onTick r)
  | Event.flush => some (onFlush r)
  | Event.shutdown => some (onShutdown r)
  | Event.unspool buf => onUnspool cd r buf
  | Event.ingress buf => some (onIngress cd r buf)

/-- One pass through the body of the `for` loop of `relay`. -/
def iteration (cd : Codec) (r : Relay) (e : Event) : Option (Relay × List Effect) :=
  if r.returned then none
  else
    let (r1, eff1) := preamble r
    match handle cd r1 e with
    | some (r2, eff2) => some (r2, eff1 ++ eff2)
    | none => none

/-- The six counters an ingress record can end up in. -/
def counter (d : Destination) : Fin 6 → Int
  | 0 => d.numBuffered
  | 1 => d.numSpool
  | 2 => d.numDropSlowConn
  | 3 => d.numDropSlowSpool
  | 4 => d.numDropNoConnNoSpool
  | 5 => d.numDropBadPickle

/-- An ingress record was dropped because `conn.In` could not take it. -/
def Effect.isSlowConnDrop : Effect → Bool
  | Effect.offerConnIn _ _ false => true
  | _ => false

/-- An attempt to send on `conn.In` of the connection with identity `k`. -/
def Effect.isOfferTo (k : Nat) : Effect → Bool
  | Effect.offerConnIn c _ _ => c == k
  | _ => false

/-! ## Executions of the loop

Between two iterations the other goroutines may change what `relay` will
observe: the connection's writer drains `conn.In` or marks the connection dead,
the queue writer drains `queueInRT`. -/

/-- A change made by another goroutine to what `relay` observes. -/
inductive EnvMove where
  /-- the current connection (if any) now answers like this -/
  | connState (alive : Bool) (inFree : Nat) (flushResult : Option String) (redo : List Record)
  /-- The channel `queueInRT` can now take this many sends at once -/
  | queueInRT (free : Nat)
  deriving DecidableEq, Repr

def applyEnv (r : Relay) : EnvMove → Relay
  | EnvMove.connState alive inFree flushResult redo =>
    match r.conn with
    | some c => { r with conn := some { c with alive := alive, inFree := inFree,
                                                flushResult := flushResult, redo := redo } }
    | none => r
  | EnvMove.queueInRT free => { r with dest := { r.dest with queueInRTFree := free } }

/-- One step of an execution: another goroutine moves, or the loop runs one
iteration and takes the given branch of the `select`. -/
inductive Step where
  | env (m : EnvMove)
  | iter (e : Event)
  deriving DecidableEq, Repr

def step (cd : Codec) (r : Relay) : Step → Option (Relay × List Effect)
  | Step.env m => some (applyEnv r m, [])
  | Step.iter e => iteration cd r e

/-- Runs the steps in order and collects the effects; `none` when some step
cannot be taken. -/
def run (cd : Codec) (r : Relay) : List Step → Option (Relay × List Effect)
  | [] => some (r, [])
  | s :: rest =>
    match step cd r s with
    | none => none
    | some (r1, eff1) =>
      match run cd r1 rest with
      | none => none
      | some (r2, eff2) => some (r2, eff1 ++ eff2)

/-! ## The engine with its `updateConn` tasks -/

/-- Go `strings.Replace(s, old, new, -1)` for one-character `old` and `new`. -/
def replaceChar (s : String) (old new : Char) : String :=
  String.mk (s.data.map fun c => if c = old then new else c)

def addrToPath (s : String) : String :=
  replaceChar (replaceChar s '.' '_') ':' '_'

/-- Where an `updateConn` goroutine stands. -/
inductive TaskPc where
  /-- about to run `dest.inConnUpdate <- true` -/
  | sendStart
  /-- about to run `NewConn(addr, dest, dest.periodFlush)` -/
  | newConn
  /-- about to run `dest.connUpdates <- conn` -/
  | sendConn (c : Conn)
  /-- about to run the deferred `dest.inConnUpdate <- false` -/
  | sendEnd
  deriving DecidableEq, Repr

/-- A running `updateConn(addr)` goroutine. -/
structure Task where
  addr : String
  pc : TaskPc
  deriving DecidableEq, Repr

/-- The `relay` goroutine together with the `updateConn` goroutines that have
been started and have not returned. -/
structure Sys where
  relay : Relay
  tasks : List Task
  deriving DecidableEq, Repr

/-- The start of `relay`, up to the `for`: no connection, `numConnUpdates := 0`,
and `go dest.updateConn(dest.Addr)`. -/
def relayStart (d : Destination) : Sys :=
  { relay := { dest := d, conn := none, toUnspool := false, numConnUpdates := 0,
               returned := false },
    tasks := [{ addr := d.Addr, pc := TaskPc.sendStart }] }

/-- The goroutines an iteration has started with `go dest.updateConn(..)`. -/
def spawnedTasks : List Effect → List Task
  | [] => []
  | Effect.goUpdateConn addr :: rest => { addr := addr, pc := TaskPc.sendStart } :: spawnedTasks rest
  | _ :: rest => spawnedTasks rest

/-- Go `strings.Replace(key, "=", "_is_", -1)` on the characters of `key`. -/
def replaceEquals : List Char → List Char
  | [] => []
  | c :: cs =>
    if c = '=' then '_' :: 'i' :: 's' :: '_' :: replaceEquals cs
    else c :: replaceEquals cs

/-- The package variables `service` and `instance` of `metrics_wrapper.go` and
the process-wide metrics registry, passed explicitly: `registry k` is the
value of the counter registered under the key `k`, and 0 when there is none
yet (`GetOrRegister` then registers a new counter). -/
structure MetricsEnv where
  service : String
  instanceName : String
  registry : String → Int

/-- The function `expandKey`; `none` stands for its panic when `instance` is
empty. -/
def expandKey (env : MetricsEnv) (key : String) : Option String :=
  if env.instanceName = "" then none
  else
    some (String.mk (replaceEquals
      ("service=" ++ env.service ++ ".instance=" ++ env.instanceName ++ "." ++ key).data))

/-- The function `Counter`: the value of the counter registered under the
expanded key. -/
def Counter (env : MetricsEnv) (key : String) : Option Int :=
  match expandKey env ("target_type=counter." ++ key) with
  | none => none
  | some k => some (env.registry k)

/-- The method `setMetrics`, for the six counters kept in `Destination`: each
field is bound to the counter registered under a key built from
`dest.cleanAddr` as it is when `setMetrics` runs.  The result is `none` when
`expandKey` panics. -/
def setMetrics (env : MetricsEnv) (d : Destination) : Option Destination :=
  match
    Counter env ("dest=" ++ d.cleanAddr ++ ".target_type=count.unit=Metric.action=drop.reason=conn_down_no_spool"),
    Counter env ("dest=" ++ d.cleanAddr ++ ".target_type=count.unit=Metric.direction=spool"),
    Counter env ("dest=" ++ d.cleanAddr ++ ".target_type=count.unit=Metric.action=drop.reason=slow_spool"),
    Counter env ("dest=" ++ d.cleanAddr ++ ".target_type=count.unit=Metric.action=drop.reason=slow_conn"),
    Counter env ("dest=" ++ d.cleanAddr ++ ".target_type=count.unit=Metric.action=drop.reason=bad_pickle"),
    Counter env ("dest=" ++ d.cleanAddr ++ ".what=numBuffered") with
  | some a, some b, some c, some e, some f, some g =>
    some { d with numDropNoConnNoSpool := a, numSpool := b, numDropSlowSpool := c,
                  numDropSlowConn := e, numDropBadPickle := f, numBuffered := g }
  | _, _, _, _, _, _ => none

/-- The body of `updateConn` between `NewConn` and `dest.connUpdates <- conn`:
when `addr` differs from `dest.Addr`, first `dest.Addr = addr`, then
`dest.cleanAddr = addrToPath(addr)`, then `dest.setMetrics()`.  The result is
`none` when `setMetrics` panics. -/
def afterNewConn (env : MetricsEnv) (d : Destination) (addr : String) : Option Destination :=
  if addr ≠ d.Addr then
    let d1 := { d with Addr := addr }
    let d2 := { d1 with cleanAddr := addrToPath addr }
    setMetrics env d2
  else some d

/-- A move of the whole engine. -/
inductive SysMove where
  /-- the loop takes a branch fed from outside the engine -/
  | relayEvent (e : Event)
  /-- the `i`-th running `updateConn` advances to its next channel operation;
  `newConn` is what `NewConn` answers (`none` for an error) and `metrics` the
  state of the metrics registry at that moment, both looked at only when the
  task is about to call `NewConn` -/
  | taskStep (i : Nat) (newConn : Option Conn) (metrics : MetricsEnv)
  | env (m : EnvMove)

/-- One move of the engine; `none` when the move cannot be made, or when
`updateConn` panics in `setMetrics` and the process dies. -/
def sysStep (cd : Codec) (s : Sys) : SysMove → Option Sys
  | SysMove.relayEvent e =>
    match e with
    | Event.inConnUpdate _ => none
    | Event.connUpdates _ => none
    | e =>
      match iteration cd s.relay e with
      | some (r, eff) => some { relay := r, tasks := s.tasks ++ spawnedTasks eff }
      | none => none
  | SysMove.env m => some { s with relay := applyEnv s.relay m }
  | SysMove.taskStep i newConn metrics =>
    match s.tasks.get? i with
    | none => none
    | some t =>
      match t.pc with
      | TaskPc.sendStart =>
        match iteration cd s.relay (Event.inConnUpdate true) with
        | some (r, eff) =>
          some { relay := r,
                 tasks := s.tasks.set i { t with pc := TaskPc.newConn } ++ spawnedTasks eff }
        | none => none
      | TaskPc.newConn =>
        match newConn with
        | none => some { s with tasks := s.tasks.set i { t with pc := TaskPc.sendEnd } }
        | some c =>
          match afterNewConn metrics s.relay.dest t.addr with
          | some d =>
            some { relay := { s.relay with dest := d },
                   tasks := s.tasks.set i { t with pc := TaskPc.sendConn c } }
          | none => none
      | TaskPc.sendConn c =>
        match iteration cd s.relay (Event.connUpdates (some c)) with
        | some (r, eff) =>
          some { relay := r,
                 tasks := s.tasks.set i { t with pc := TaskPc.sendEnd } ++ spawnedTasks eff }
        | none => none
      | TaskPc.sendEnd =>
        match iteration cd s.relay (Event.inConnUpdate false) with
        | some (r, eff) => some { relay := r, tasks := s.tasks.eraseIdx i ++ spawnedTasks eff }
        | none => none

def sysRun (cd : Codec) (s : Sys) : List SysMove → Option Sys
  | [] => some s
  | m :: rest =>
    match sysStep cd s m with
    | none => none
    | some s1 => sysRun cd s1 rest

/-! ## `Spool.Writer` -/

/-- What `Spool.Writer` reads and writes. -/
structure Spool where
  /-- the records waiting in the buffered channel `InRT`, oldest first -/
  InRT : List Record
  /-- the record a sender blocked on the unbuffered `InBulk` is offering -/
  InBulk : Option Record
  /-- whether a sender is blocked on `shutdownWriter` -/
  shutdownWriter : Bool
  /-- the records sent on `queueBuffer`, oldest first -/
  queueBuffer : List Record
  numIncomingRT : Int
  numIncomingBulk : Int
  numBuffered : Int
  /-- set once `Writer` has returned -/
  writerReturned : Bool
  deriving DecidableEq, Repr

/-- The three cases of the `select` in `Spool.Writer`. -/
inductive WriterCase where
  | shutdown
  | rt
  | bulk
  deriving DecidableEq, Repr

/-- A case of the `select` is ready when its receive can complete at once. -/
def Spool.ready (s : Spool) : WriterCase → Bool
  | WriterCase.shutdown => s.shutdownWriter
  | WriterCase.rt => !s.InRT.isEmpty
  | WriterCase.bulk => s.InBulk.isSome

/-- One iteration of `Spool.Writer` in which the `select` runs case `c`.  Go's
`select` runs any one of the cases that are ready, so the result is `none`
when `c` is not ready.  The send on `queueBuffer` is taken at the moment it
completes. -/
def Writer (s : Spool) (c : WriterCase) : Option Spool :=
  if s.writerReturned then none
  else
    match c with
    | WriterCase.shutdown =>
      if s.shutdownWriter then some { s with shutdownWriter := false, writerReturned := true }
      else none
    | WriterCase.rt =>
      match s.InRT with
      | buf :: rest =>
        some { s with InRT := rest, numIncomingRT := s.numIncomingRT + 1,
                      queueBuffer := s.queueBuffer ++ [buf], numBuffered := s.numBuffered + 1 }
      | [] => none
    | WriterCase.bulk =>
      match s.InBulk with
      | some buf =>
        some { s with InBulk := none, numIncomingBulk := s.numIncomingBulk + 1,
                      queueBuffer := s.queueBuffer ++ [buf], numBuffered := s.numBuffered + 1 }
      | none => none

/-! ## Sample data -/

/-- A codec that takes lines of exactly three bytes and frames them. -/
def sampleCodec : Codec where
  DataPoint := Record
  parseDataPoint := fun buf =>
    if buf.length = 3 then Except.ok buf else Except.error "bad line"
  pickle := fun dp => 128 :: dp

def sampleDest : Destination where
  Addr := "localhost:2003"
  Spool := true
  Pickle := false
  Online := false
  SlowNow := false
  SlowLastLoop := false
  cleanAddr := "localhost_2003"
  queueInRTFree := 10
  numDropNoConnNoSpool := 0
  numSpool := 0
  numDropSlowSpool := 0
  numDropSlowConn := 0
  numDropBadPickle := 0
  numBuffered := 0

def sampleConn (id : Nat) (alive : Bool) (inFree : Nat) : Conn where
  id := id
  alive := alive
  inFree := inFree
  flushResult := none
  redo := []

def sampleRelay (d : Destination) (conn : Option Conn) : Relay where
  dest := d
  conn := conn
  toUnspool := false
  numConnUpdates := 0
  returned := false

/-- A registry with nothing registered yet. -/
def sampleEnv : MetricsEnv where
  service := "carbon-relay-ng"
  instanceName := "default"
  registry := fun _ => 0

/-- The outcome `out` of a handler offered `payload` to `conn.In` of `c`
without blocking: enqueued and counted in `numBuffered` when `conn.In` could
take it, otherwise dropped and counted in `numDropSlowConn`. -/
def SentOrSlowDrop (r : Relay) (c : Conn) (payload : Record) (out : Relay × List Effect) : Prop :=
  (0 < c.inFree →
    out.2 = [Effect.offerConnIn c.id payload true] ∧
    out.1.dest.numBuffered = r.dest.numBuffered + 1) ∧
  (c.inFree = 0 →
    out.2 = [Effect.offerConnIn c.id payload false] ∧
    out.1.dest.numDropSlowConn = r.dest.numDropSlowConn + 1)

/-- The outcome `out` of a handler offered `payload` to `queueInRT` without
blocking: counted in `numSpool` when taken, in `numDropSlowSpool` otherwise. -/
def SpooledOrSlowDrop (r : Relay) (payload : Record) (out : Relay × List Effect) : Prop :=
  (0 < r.dest.queueInRTFree →
    out.2 = [Effect.offerQueueInRT payload true] ∧
    out.1.dest.numSpool = r.dest.numSpool + 1) ∧
  (r.dest.queueInRTFree = 0 →
    out.2 = [Effect.offerQueueInRT payload false] ∧
    out.1.dest.numDropSlowSpool = r.dest.numDropSlowSpool + 1)

/-- The effect is a send tried under `select` with a `default` case. -/
def Effect.isOffer : Effect → Bool
  | Effect.offerConnIn _ _ _ => true
  | Effect.offerQueueInRT _ _ => true
  | _ => false

/-- The effects put a record into `conn.In` and also into `queueInRT`. -/
def placedInBoth (eff : List Effect) : Prop :=
  (∃ k p, Effect.offerConnIn k p true ∈ eff) ∧ (∃ q, Effect.offerQueueInRT q true ∈ eff)

/-! ## Statements about executions: a detached connection -/

/-- The step hands the loop a connection with identity `k` on `connUpdates`. -/
def Step.publishes (k : Nat) : Step → Bool
  | Step.iter (Event.connUpdates (some c)) => c.id == k
  | _ => false

/-- The loop does not hold the connection with identity `k`. -/
def NotConn (k : Nat) (r : Relay) : Prop :=
  ∀ c, r.conn = some c → c.id ≠ k

/-- The trace used to exercise C8: a record arrives while the held connection
is dead, a tick, a fresh connection is published, another record arrives. -/
def deadConnTrace : List Step :=
  [Step.iter (Event.ingress [97]), Step.iter Event.tick,
   Step.iter (Event.connUpdates (some (sampleConn 2 true 5))),
   Step.iter (Event.ingress [98])]

/-! ## Statements about executions: the slow window -/

/-- The step hands the loop a live (non-nil) connection on `connUpdates`. -/
def Step.publishesLive : Step → Bool
  | Step.iter (Event.connUpdates (some _)) => true
  | _ => false

/-- Somewhere in `steps`, run from `r`, there are two consecutive reconnect
ticks with no drop to a slow connection between them. -/
def CleanWindow (cd : Codec) (r : Relay) (steps : List Step) : Prop :=
  ∃ pre mid post ra ea rb eb,
    steps = pre ++ Step.iter Event.tick :: (mid ++ Step.iter Event.tick :: post) ∧
    (∀ s ∈ mid, s ≠ Step.iter Event.tick) ∧
    run cd r (pre ++ [Step.iter Event.tick]) = some (ra, ea) ∧
    run cd ra mid = some (rb, eb) ∧
    ∀ x ∈ eb, x.isSlowConnDrop = false

/-- There is a reconnect tick in `steps`, run from `r`, and no drop to a slow
connection since the last one. -/
def CleanSinceTick (cd : Codec) (r : Relay) (steps : List Step) : Prop :=
  ∃ pre mid ra ea rb eb,
    steps = pre ++ Step.iter Event.tick :: mid ∧
    (∀ s ∈ mid, s ≠ Step.iter Event.tick) ∧
    run cd r (pre ++ [Step.iter Event.tick]) = some (ra, ea) ∧
    run cd ra mid = some (rb, eb) ∧
    ∀ x ∈ eb, x.isSlowConnDrop = false

/-- The engine right after a record was dropped to slow connection 1. -/
def slowRelay : Relay where
  dest := { sampleDest with SlowNow := true, numDropSlowConn := 1 }
  conn := some (sampleConn 1 true 0)
  toUnspool := true
  numConnUpdates := 0
  returned := false

/-- After the drop: the connection dies, one tick passes, a new connection is
published. -/
def reconnectSteps : List Step :=
  [Step.env (EnvMove.connState false 0 none []), Step.iter Event.tick,
   Step.iter (Event.connUpdates (some (sampleConn 2 true 5)))]

/-- After the drop: a tick, the connection drains, a second tick. -/
def quietSteps : List Step :=
  [Step.iter Event.tick, Step.env (EnvMove.connState true 5 none []), Step.iter Event.tick]

/-! ## A schedule with an early tick -/

/-- A schedule of the engine right after start: the ticker fires before the
first `updateConn` has got its `true` through on `inConnUpdate`; then both
`updateConn` goroutines deliver their `true`. -/
def earlyTickSchedule : List SysMove :=
  [SysMove.relayEvent Event.tick, SysMove.taskStep 0 none sampleEnv,
   SysMove.taskStep 1 none sampleEnv]

/-! ## A spool with both inputs ready -/

/-- A spool whose writer finds one record waiting on `InRT` and a sender
waiting on `InBulk`. -/
def bothReadySpool : Spool where
  InRT := [[97]]
  InBulk := some [98]
  shutdownWriter := false
  queueBuffer := []
  numIncomingRT := 0
  numIncomingBulk := 0
  numBuffered := 0
  writerReturned := false

/-! ## Statements about `addrToPath` -/

/-- What `addrToPath` does to one character. -/
def cleanChar (c : Char) : Char :=
  if c = '.' ∨ c = ':' then '_' else c

/-! ## `collectRedo` and `Spool.Ingest`

Both walk over a slice and send each record on an unbuffered channel; a send
completes when the writer on the other side takes the record.  The pause after
each send (`time.Sleep`) is left out. -/

/-- A running `collectRedo(conn)` goroutine. -/
structure RedoTask where
  /-- the records of `bulkData` the `for` loop has not sent yet -/
  pending : List Record
  /-- the counter of the wait group `dest.tasks` -/
  tasks : Int
  /-- set once `collectRedo` has returned -/
  returned : Bool
  deriving DecidableEq, Repr

/-- The start of `collectRedo`, up to the `for`: `dest.tasks.Add(1)` and
`bulkData := conn.getRedo()`; `tasks` is the counter of `dest.tasks` before. -/
def collectRedoStart (tasks : Int) (conn : Conn) : RedoTask :=
  { pending := conn.redo, tasks := tasks + 1, returned := false }

/-- One step of `collectRedo`: the send `dest.queueInBulk <- buf` of the next
record completes (the record is handed back), or, with the slice used up,
`dest.tasks.Done()` runs and the function returns. -/
def collectRedoStep (t : RedoTask) : RedoTask × Option Record :=
  match t.pending with
  | buf :: rest => ({ t with pending := rest }, some buf)
  | [] =>
    if t.returned then (t, none)
    else ({ t with tasks := t.tasks - 1, returned := true }, none)

/-- Runs `collectRedo` for `n` steps; hands back the records sent on
`queueInBulk`, in the order they were sent. -/
def collectRedo : Nat → RedoTask → RedoTask × List Record
  | 0, t => (t, [])
  | n + 1, t =>
    let (t1, sent1) := collectRedoStep t
    let (t2, sent2) := collectRedo n t1
    (t2, sent1.toList ++ sent2)

/-- A running `Spool.Ingest(bulkData)` call. -/
structure IngestTask where
  /-- the records of `bulkData` the `for` loop has not sent yet -/
  pending : List Record
  /-- set once `Ingest` has returned -/
  returned : Bool
  deriving DecidableEq, Repr

/-- One step of `Spool.Ingest`: the send `s.InBulk <- buf` of the next record
completes, or, with the slice used up, the function returns. -/
def IngestStep (t : IngestTask) : IngestTask × Option Record :=
  match t.pending with
  | buf :: rest => ({ t with pending := rest }, some buf)
  | [] => ({ t with returned := true }, none)

/-- Runs `Spool.Ingest` for `n` steps; hands back the records sent on `InBulk`,
in the order they were sent. -/
def Ingest : Nat → IngestTask → IngestTask × List Record
  | 0, t => (t, [])
  | n + 1, t =>
    let (t1, sent1) := IngestStep t
    let (t2, sent2) := Ingest n t1
    (t2, sent1.toList ++ sent2)

/-! ## `Destination.Flush` -/

/-- The values sent on `dest.flushErr`, in order. -/
def flushReplies : List Effect → List (Option String)
  | [] => []
  | Effect.flushErr err :: rest => err :: flushReplies rest
  | _ :: rest => flushReplies rest

/-- A call of `Destination.Flush`: the send on `dest.flush` completes when the
loop takes the flush branch, and the value handed back is the one then
received on `dest.flushErr` (`none` is the nil error).  The result is `none`
when the loop has returned and nobody receives on `dest.flush`. -/
def Flush (cd : Codec) (r : Relay) : Option (Relay × Option String) :=
  match iteration cd r Event.flush with
  | none => none
  | some (r1, eff) =>
    match flushReplies eff with
    | err :: _ => some (r1, err)
    | [] => none

/-! ## Statements about the counters -/

/-- The sum of the six counters an incoming record can end up in. -/
def counterSum (d : Destination) : Int :=
  d.numBuffered + d.numSpool + d.numDropSlowConn + d.numDropSlowSpool
    + d.numDropNoConnNoSpool + d.numDropBadPickle

/-- The step is an iteration that takes a record from `dest.in` or from the
spool output. -/
def Step.isRecord : Step → Bool
  | Step.iter (Event.ingress _) => true
  | Step.iter (Event.unspool _) => true
  | _ => false

/-- A record is spooled while there is no connection, a connection comes up,
and the record is read back from the spool and sent. -/
def spoolThenReplay : List Step :=
  [Step.iter (Event.ingress [97]),
   Step.iter (Event.connUpdates (some (sampleConn 2 true 5))),
   Step.iter (Event.unspool [97])]

/-! ## An execution in which the connection dies -/

/-- A connection is published, dies, and the loop runs one more iteration. -/
def connDiesSteps : List Step :=
  [Step.iter (Event.connUpdates (some (sampleConn 1 true 5))),
   Step.env (EnvMove.connState false 0 none []),
   Step.iter Event.tick]

/-! ## `Destination.QueueWriter` -/

/-- The two inputs of `QueueWriter` as a receive finds them. -/
structure QueueInputs where
  /-- the records waiting in the buffered channel `queueInRT`, oldest first -/
  queueInRT : List Record
  /-- the record a sender blocked on the unbuffered `queueInBulk` is offering -/
  queueInBulk : Option Record
  deriving DecidableEq, Repr

/-- The `case` of `QueueWriter` that ran, named after its `log.Debug` line. -/
inductive QueueCase where
  /-- the outer `case buf := <-dest.queueInRT` ("satisfying spool RT 1") -/
  | rt1
  /-- the inner `case buf := <-dest.queueInRT` ("satisfying spool RT 2") -/
  | rt2
  /-- the inner `case buf := <-dest.queueInBulk` ("satisfying spool BULK") -/
  | bulk
  deriving DecidableEq, Repr

/-- What one iteration of `QueueWriter` has done. -/
structure QueueWritten where
  /-- the case that ran -/
  case : QueueCase
  /-- the inputs after the receive -/
  inputs : QueueInputs
  /-- the records sent on `queueBuffer` so far, oldest first -/
  queueBuffer : List Record
  deriving DecidableEq, Repr

/-- One iteration of the `for` loop of `QueueWriter`.  `now` is the state of the
inputs when the outer `select` runs and `queueBuffer` what has been sent on
`dest.queueBuffer` so far.  When the outer `select` falls to `default`, the
inner `select` blocks until one of its receives can complete; `later` is the
state of the inputs at that moment and `pick` the case that runs (any ready
one may).  The result is `none` when the picked case is not ready.  The send
on `queueBuffer` is taken at the moment it completes. -/
def QueueWriter (now : QueueInputs) (queueBuffer : List Record) (later : QueueInputs)
    (pick : QueueCase) : Option QueueWritten :=
  match now.queueInRT with
  | buf :: rest =>
    some { case := QueueCase.rt1, inputs := { now with queueInRT := rest },
           queueBuffer := queueBuffer ++ [buf] }
  | [] =>
    match pick with
    | QueueCase.rt1 => none
    | QueueCase.rt2 =>
      match later.queueInRT with
      | buf :: rest =>
        some { case := QueueCase.rt2, inputs := { later with queueInRT := rest },
               queueBuffer := queueBuffer ++ [buf] }
      | [] => none
    | QueueCase.bulk =>
      match later.queueInBulk with
      | some buf =>
        some { case := QueueCase.bulk, inputs := { later with queueInBulk := none },
               queueBuffer := queueBuffer ++ [buf] }
      | none => none

/-! ## `NewDestination`

A panic is a result of its own. -/

/-- How a Go function that may return an error can end. -/
inductive Outcome (α : Type) where
  /-- the value returned with a nil error -/
  | ok (a : α)
  /-- the error returned -/
  | error (msg : String)
  /-- the function panicked -/
  | panic (msg : String)
  deriving DecidableEq, Repr

/-- The constructor `NewDestination`.  `matcher` is what `NewMatcher(prefix,
sub, regex)` answers; the fields not listed in `Destination` (the matcher, the
spool directory, the two periods) are left out, and the channels do not exist
before `Run`. -/
def NewDestination (env : MetricsEnv) (matcher : Except String Unit) (addr : String)
    (spool pickle : Bool) : Outcome Destination :=
  match matcher with
  | Except.error err => Outcome.error err
  | Except.ok _ =>
    let cleanAddr := addrToPath addr
    let dest : Destination :=
      { Addr := addr, Spool := spool, Pickle := pickle, Online := false, SlowNow := false,
        SlowLastLoop := false, cleanAddr := cleanAddr, queueInRTFree := 0,
        numDropNoConnNoSpool := 0, numSpool := 0, numDropSlowSpool := 0, numDropSlowConn := 0,
        numDropBadPickle := 0, numBuffered := 0 }
    match setMetrics env dest with
    | none => Outcome.panic "instance must be set in graphite expandKey!"
    | some bound => Outcome.ok bound

/-- The registry key of the counter that `Counter(key)` hands out, written
out: `service=<service>.instance=<instance>.target_type=counter.<key>` with
every `=` turned into `_is_`. -/
def registryKey (env : MetricsEnv) (key : String) : String :=
  String.mk (replaceEquals
    ("service=" ++ env.service ++ ".instance=" ++ env.instanceName
      ++ ".target_type=counter." ++ key).data)

/-- The six counter fields of `d` hold what the registry has under the keys
of `setMetrics` (lines 84-97 of `destination.go`) for the clean address
`cleanAddr`. -/
def CountersUnder (env : MetricsEnv) (cleanAddr : String) (d : Destination) : Prop :=
  d.numDropNoConnNoSpool = env.registry (registryKey env
    ("dest=" ++ cleanAddr ++ ".target_type=count.unit=Metric.action=drop.reason=conn_down_no_spool")) ∧
  d.numSpool = env.registry (registryKey env
    ("dest=" ++ cleanAddr ++ ".target_type=count.unit=Metric.direction=spool")) ∧
  d.numDropSlowSpool = env.registry (registryKey env
    ("dest=" ++ cleanAddr ++ ".target_type=count.unit=Metric.action=drop.reason=slow_spool")) ∧
  d.numDropSlowConn = env.registry (registryKey env
    ("dest=" ++ cleanAddr ++ ".target_type=count.unit=Metric.action=drop.reason=slow_conn")) ∧
  d.numDropBadPickle = env.registry (registryKey env
    ("dest=" ++ cleanAddr ++ ".target_type=count.unit=Metric.action=drop.reason=bad_pickle")) ∧
  d.numBuffered = env.registry (registryKey env
    ("dest=" ++ cleanAddr ++ ".what=numBuffered"))

/-- The rest of a destination: everything but `Addr`, `cleanAddr` and the six
counters is the same in `d1` and `d`. -/
def SameSettings (d1 d : Destination) : Prop :=
  d1.Spool = d.Spool ∧ d1.Pickle = d.Pickle ∧ d1.Online = d.Online ∧
  d1.SlowNow = d.SlowNow ∧ d1.SlowLastLoop = d.SlowLastLoop ∧
  d1.queueInRTFree = d.queueInRTFree

/-- A registry in which the spool counter of `localhost_2003` stands at 3, the
one of `10_0_0_1_2003` at 5 and the one of `10_0_0_2_2003` at 7. -/
def talliedEnv : MetricsEnv where
  service := "carbon-relay-ng"
  instanceName := "default"
  registry := fun k =>
    if k = "service_is_carbon-relay-ng.instance_is_default.target_type_is_counter.dest_is_localhost_2003.target_type_is_count.unit_is_Metric.direction_is_spool" then 3
    else if k = "service_is_carbon-relay-ng.instance_is_default.target_type_is_counter.dest_is_10_0_0_1_2003.target_type_is_count.unit_is_Metric.direction_is_spool" then 5
    else if k = "service_is_carbon-relay-ng.instance_is_default.target_type_is_counter.dest_is_10_0_0_2_2003.target_type_is_count.unit_is_Metric.direction_is_spool" then 7
    else 0

/-! ## `NewRouteGrafanaNet` -/

/-- One retention of a storage schema (`persister.Retention`). -/
structure Retention where
  secondsPerPoint : Int
  numberOfPoints : Int
  deriving DecidableEq, Repr

/-- One storage schema (`persister.Schema`); `Pattern` is the text of the
regular expression, what `schema.Pattern.String()` answers. -/
structure Schema where
  Name : String
  Pattern : String
  Retentions : List Retention
  deriving DecidableEq, Repr

/-- The fields `NewRouteGrafanaNet` fills in, metric handles and channel
apart. -/
structure RouteGrafanaNet where
  key : String
  addr : String
  apiKey : String
  schemas : List Schema
  bufSize : Int
  flushMaxNum : Int
  flushMaxWait : Int
  timeout : Int
  sslVerify : Bool
  deriving DecidableEq, Repr

/-- A 64-bit signed integer after an operation that may overflow. -/
def wrapInt64 (x : Int) : Int :=
  (x + 2 ^ 63) % 2 ^ 64 - 2 ^ 63

/-- The `for` loop over the schemas in `NewRouteGrafanaNet`, from the schema
at the head of the list on; `defaultFound` is the variable of that name.  The
result is its value after the loop, or the error the loop returns. -/
def scanSchemas : List Schema → Bool → Except String Bool
  | [], defaultFound => Except.ok defaultFound
  | schema :: rest, defaultFound =>
    let found := if schema.Pattern = ".*" then true else defaultFound
    if schema.Retentions.length = 0 then
      Except.error "retention setting cannot be empty"
    else
      scanSchemas rest found

/-- The constructor `NewRouteGrafanaNet`.  `matcher` is what `NewMatcher`
answers and `readSchemas` what `persister.ReadWhisperSchemas(schemasFile)`
answers; the parameter `spool` is not read by the function and is left out.
Creating the channel with `make(chan []byte, bufSize)` panics on a negative
size and on a size above `maxChan`, the largest size the Go runtime at hand
makes such a channel for; the metric constructors panic in `expandKey` when
`instance` is empty. -/
def NewRouteGrafanaNet (env : MetricsEnv) (maxChan : Int) (matcher : Except String Unit)
    (readSchemas : Except String (List Schema)) (key addr apiKey : String)
    (sslVerify : Bool) (bufSize flushMaxNum flushMaxWait timeout : Int) :
    Outcome RouteGrafanaNet :=
  match matcher with
  | Except.error err => Outcome.error err
  | Except.ok _ =>
    match readSchemas with
    | Except.error err => Outcome.error err
    | Except.ok schemas =>
      match scanSchemas schemas false with
      | Except.error err => Outcome.error err
      | Except.ok defaultFound =>
        if !defaultFound then
          Outcome.error "storage-conf does not have a default '.*' pattern"
        else if bufSize < 0 ∨ maxChan < bufSize then
          Outcome.panic "makechan: size out of range"
        else if env.instanceName = "" then
          Outcome.panic "instance must be set in graphite expandKey!"
        else
          Outcome.ok
            { key := key, addr := addr, apiKey := apiKey, schemas := schemas,
              bufSize := bufSize, flushMaxNum := flushMaxNum,
              flushMaxWait := wrapInt64 (flushMaxWait * 1000000),
              timeout := wrapInt64 (timeout * 1000000), sslVerify := sslVerify }

/-- A schema file with a catch-all pattern and one with an empty retention
list in front of it. -/
def sampleSchemas : List Schema :=
  [{ Name := "default", Pattern := ".*",
     Retentions := [{ secondsPerPoint := 60, numberOfPoints := 1440 }] }]

def brokenSchemas : List Schema :=
  [{ Name := "default", Pattern := ".*",
     Retentions := [{ secondsPerPoint := 60, numberOfPoints := 1440 }] },
   { Name := "carbon", Pattern := "^carbon[.]", Retentions := [] }]

/-! ## `parseMetric`

The line is a Lean string, that is valid UTF-8.  `strings.TrimSpace`,
`strings.Fields` and `strconv.ParseUint` are written out after their
documented behaviour; `strconv.ParseFloat` and `schemas.Match` are taken as
parameters. -/

/-- Go `unicode.IsSpace`. -/
def isSpace (c : Char) : Bool :=
  let n := c.toNat
  (9 ≤ n && n ≤ 13) || n == 32 || n == 133 || n == 160 || n == 5760
    || (8192 ≤ n && n ≤ 8202) || n == 8232 || n == 8233 || n == 8239 || n == 8287
    || n == 12288

/-- The field collected so far, as a list of fields: nothing when it is
empty. -/
def closeField (cur : List Char) : List (List Char) :=
  if cur = [] then [] else [cur]

/-- The fields of the rest of a line, `cur` being the characters of the field
the scan is in. -/
def fieldsFrom : List Char → List Char → List (List Char)
  | [], cur => closeField cur
  | c :: cs, cur =>
    if isSpace c then closeField cur ++ fieldsFrom cs []
    else fieldsFrom cs (cur ++ [c])

/-- Go `strings.Fields`: the maximal runs of characters that are not white
space. -/
def Fields (s : String) : List String :=
  (fieldsFrom s.data []).map String.mk

/-- Go `strings.TrimSpace`. -/
def TrimSpace (s : String) : String :=
  String.mk ((s.data.dropWhile isSpace).reverse.dropWhile isSpace).reverse

/-- The number a string of decimal digits stands for. -/
def decimalValue (digits : List Char) : Nat :=
  digits.foldl (fun acc c => acc * 10 + (c.toNat - 48)) 0

/-- Go `strconv.ParseUint(s, 10, 32)`; `none` stands for an error (empty
string, a character that is not a decimal digit, or a value that does not fit
in 32 bits). -/
def ParseUint32 (s : String) : Option Nat :=
  if s.data = [] then none
  else if s.data.all Char.isDigit then
    if decimalValue s.data < 2 ^ 32 then some (decimalValue s.data) else none
  else none

/-- What `parseMetric` gets from outside: the type of a parsed float,
`strconv.ParseFloat(s, 64)` (`none` for an error) and `schemas.Match(name)`
(`none` when no schema matches). -/
structure GrafanaEnv where
  Value : Type
  ParseFloat : String → Option Value
  Match : List Schema → String → Option Schema

/-- The fields of `schema.MetricData` that `parseMetric` sets. -/
structure MetricData (V : Type) where
  Name : String
  Interval : Int
  Value : V
  Unit : String
  Time : Int
  TargetType : String
  Tags : List String
  OrgId : Int

/-- The function `parseMetric`; `Outcome.ok none` is the nil result.  It panics
when no schema matches, and on `s.Retentions[0]` when the matched schema has
no retention. -/
def parseMetric (env : GrafanaEnv) (buf : String) (schemas : List Schema) :
    Outcome (Option (MetricData env.Value)) :=
  let msg := TrimSpace buf
  let elements := Fields msg
  match elements with
  | [name, e1, e2] =>
    match env.ParseFloat e1 with
    | none => Outcome.ok none
    | some val =>
      match ParseUint32 e2 with
      | none => Outcome.ok none
      | some timestamp =>
        match env.Match schemas name with
        | none => Outcome.panic "couldn't find a schema"
        | some s =>
          match s.Retentions with
          | [] => Outcome.panic "index out of range"
          | retention :: _ =>
            Outcome.ok (some
              { Name := name, Interval := retention.secondsPerPoint, Value := val, Unit := "",
                Time := (timestamp : Int), TargetType := "gauge", Tags := [], OrgId := 1 })
  | _ => Outcome.ok none

/-- An environment whose floats are kept as text and whose matcher takes the
first schema. -/
def sampleGrafana : GrafanaEnv where
  Value := String
  ParseFloat := fun s =>
    if s.data ≠ [] ∧ s.data.all (fun c => c.isDigit || c == '.') then some s else none
  Match := fun schemas _ => schemas.head?

/-! # Properties -/

/-! ## The ingress handler -/

theorem counter_numBuffered (d : Destination) (j : Fin 6) :
    counter { d with numBuffered := d.numBuffered + 1 } j
      = counter d j + if j = 0 then 1 else 0 := by
  fin_cases j <;> simp [counter]

theorem counter_numSpool (d : Destination) (n : Nat) (j : Fin 6) :
    counter { d with numSpool := d.numSpool + 1, queueInRTFree := n } j
      = counter d j + if j = 1 then 1 else 0 := by
  fin_cases j <;> simp [counter]

theorem counter_numDropSlowConn (d : Destination) (j : Fin 6) :
    counter { d with numDropSlowConn := d.numDropSlowConn + 1, SlowNow := true } j
      = counter d j + if j = 2 then 1 else 0 := by
  fin_cases j <;> simp [counter]

theorem counter_numDropSlowSpool (d : Destination) (j : Fin 6) :
    counter { d with numDropSlowSpool := d.numDropSlowSpool + 1 } j
      = counter d j + if j = 3 then 1 else 0 := by
  fin_cases j <;> simp [counter]

theorem counter_numDropNoConnNoSpool (d : Destination) (j : Fin 6) :
    counter { d with numDropNoConnNoSpool := d.numDropNoConnNoSpool + 1 } j
      = counter d j + if j = 4 then 1 else 0 := by
  fin_cases j <;> simp [counter]

theorem counter_numDropBadPickle (d : Destination) (j : Fin 6) :
    counter { d with numDropBadPickle := d.numDropBadPickle + 1 } j
      = counter d j + if j = 5 then 1 else 0 := by
  fin_cases j <;> simp [counter]

/-- Every call of `nonBlockingSend` adds one to exactly one counter. -/
theorem nonBlockingSend_counts (cd : Codec) (d : Destination) (c : Conn) (buf : Record) :
    ∃ i : Fin 6, ∀ j : Fin 6,
      counter (nonBlockingSend cd d c buf).1 j = counter d j + if j = i then 1 else 0 := by
  unfold nonBlockingSend
  by_cases hp : d.Pickle = true
  · cases hparse : cd.parseDataPoint buf with
    | error e =>
      refine ⟨5, fun j => ?_⟩
      simp only [hp, hparse, if_true]
      exact counter_numDropBadPickle d j
    | ok dp =>
      by_cases hfree : 0 < c.inFree
      · refine ⟨0, fun j => ?_⟩
        simp only [hp, hparse, hfree, if_true]
        exact counter_numBuffered d j
      · refine ⟨2, fun j => ?_⟩
        simp only [hp, hparse, hfree, if_true, if_false]
        exact counter_numDropSlowConn d j
  · by_cases hfree : 0 < c.inFree
    · refine ⟨0, fun j => ?_⟩
      simp only [hp, hfree, if_true]
      exact counter_numBuffered d j
    · refine ⟨2, fun j => ?_⟩
      simp only [hp, hfree, if_true, if_false]
      exact counter_numDropSlowConn d j

/-- Every call of `nonBlockingSpool` adds one to exactly one counter. -/
theorem nonBlockingSpool_counts (d : Destination) (buf : Record) :
    ∃ i : Fin 6, ∀ j : Fin 6,
      counter (nonBlockingSpool d buf).1 j = counter d j + if j = i then 1 else 0 := by
  unfold nonBlockingSpool
  by_cases hfree : 0 < d.queueInRTFree
  · refine ⟨1, fun j => ?_⟩
    simp only [hfree, if_true]
    exact counter_numSpool d _ j
  · refine ⟨3, fun j => ?_⟩
    simp only [hfree, if_false]
    exact counter_numDropSlowSpool d j

/-- C1: in every engine state (connection present or absent, `Spool` and
`Pickle` on or off, `conn.In` and `queueInRT` able or unable to take a send)
and for every record received on `dest.in`, the ingress handler adds exactly 1
to exactly one of `numBuffered`, `numSpool`, `numDropSlowConn`,
`numDropSlowSpool`, `numDropNoConnNoSpool`, `numDropBadPickle` and leaves the
other five as they were. -/
theorem ingress_increments_exactly_one_counter (cd : Codec) (r : Relay) (buf : Record) :
    ∃ i : Fin 6, ∀ j : Fin 6,
      counter (onIngress cd r buf).1.dest j = counter r.dest j + if j = i then 1 else 0 := by
  unfold onIngress
  cases hc : r.conn with
  | some c =>
    obtain ⟨i, hi⟩ := nonBlockingSend_counts cd r.dest c buf
    exact ⟨i, fun j => by simpa using hi j⟩
  | none =>
    by_cases hs : r.dest.Spool = true
    · obtain ⟨i, hi⟩ := nonBlockingSpool_counts r.dest buf
      exact ⟨i, fun j => by simpa [hs] using hi j⟩
    · refine ⟨4, fun j => ?_⟩
      simp only [hs]
      exact counter_numDropNoConnNoSpool r.dest j

theorem nonBlockingSend_plain (cd : Codec) (d : Destination) (c : Conn) (buf : Record)
    (hp : d.Pickle = false) :
    nonBlockingSend cd d c buf =
      if 0 < c.inFree then
        ({ d with numBuffered := d.numBuffered + 1 }, { c with inFree := c.inFree - 1 },
         [Effect.offerConnIn c.id buf true])
      else
        ({ d with numDropSlowConn := d.numDropSlowConn + 1, SlowNow := true }, c,
         [Effect.offerConnIn c.id buf false]) := by
  simp [nonBlockingSend, hp]

theorem nonBlockingSend_pickled (cd : Codec) (d : Destination) (c : Conn) (buf : Record)
    (dp : cd.DataPoint) (hp : d.Pickle = true) (hparse : cd.parseDataPoint buf = Except.ok dp) :
    nonBlockingSend cd d c buf =
      if 0 < c.inFree then
        ({ d with numBuffered := d.numBuffered + 1 }, { c with inFree := c.inFree - 1 },
         [Effect.offerConnIn c.id (cd.pickle dp) true])
      else
        ({ d with numDropSlowConn := d.numDropSlowConn + 1, SlowNow := true }, c,
         [Effect.offerConnIn c.id (cd.pickle dp) false]) := by
  simp [nonBlockingSend, hp, hparse]

theorem nonBlockingSend_rejected (cd : Codec) (d : Destination) (c : Conn) (buf : Record)
    (e : String) (hp : d.Pickle = true) (hparse : cd.parseDataPoint buf = Except.error e) :
    nonBlockingSend cd d c buf =
      ({ d with numDropBadPickle := d.numDropBadPickle + 1 }, c, []) := by
  simp [nonBlockingSend, hp, hparse]

theorem onIngress_conn (cd : Codec) (r : Relay) (c : Conn) (buf : Record)
    (hc : r.conn = some c) :
    onIngress cd r buf =
      ({ r with dest := (nonBlockingSend cd r.dest c buf).1,
                conn := some (nonBlockingSend cd r.dest c buf).2.1 },
       (nonBlockingSend cd r.dest c buf).2.2) := by
  simp [onIngress, hc]

/-- C2 as stated fails: with `Pickle` on, a live connection whose `In` has room
and a line the parser rejects, the ingress handler offers nothing to `conn.In`
and does not count the record in `numBuffered`. -/
theorem ingress_table_fails_on_rejected_line :
    (sampleRelay { sampleDest with Pickle := true } (some (sampleConn 1 true 5))).conn
        = some (sampleConn 1 true 5) ∧
      ¬ SentOrSlowDrop (sampleRelay { sampleDest with Pickle := true } (some (sampleConn 1 true 5)))
          (sampleConn 1 true 5) [1]
          (onIngress sampleCodec
            (sampleRelay { sampleDest with Pickle := true } (some (sampleConn 1 true 5))) [1]) := by
  refine ⟨rfl, ?_⟩
  intro h
  have h1 := (h.1 (by decide)).1
  have h2 : (onIngress sampleCodec
      (sampleRelay { sampleDest with Pickle := true } (some (sampleConn 1 true 5))) [1]).2 = [] := by
    rfl
  rw [h2] at h1
  exact absurd h1 (by simp)

/-- C2, amended: the ingress handler is a total function whose only effects
are sends tried under `select` with `default`, so it never waits on a
downstream channel.  With a connection: if `Pickle` is on and the parser
rejects the record, nothing is offered and `numDropBadPickle` goes up by one;
otherwise the record (its pickled encoding when `Pickle` is on) is offered to
`conn.In`, enqueued and counted in `numBuffered` when `conn.In` can take it,
dropped and counted in `numDropSlowConn` when not.  Without a connection and
with `Spool` on the record is offered to `queueInRT` (`numSpool` when taken,
`numDropSlowSpool` when not); without a connection and with `Spool` off it is
dropped and counted in `numDropNoConnNoSpool`.  A record is never placed in
both `conn.In` and `queueInRT`. -/
theorem ingress_decision_table (cd : Codec) (r : Relay) (buf : Record) :
    (∀ c, r.conn = some c →
      (r.dest.Pickle = false → SentOrSlowDrop r c buf (onIngress cd r buf)) ∧
      (r.dest.Pickle = true → ∀ dp, cd.parseDataPoint buf = Except.ok dp →
        SentOrSlowDrop r c (cd.pickle dp) (onIngress cd r buf)) ∧
      (r.dest.Pickle = true → ∀ e, cd.parseDataPoint buf = Except.error e →
        (onIngress cd r buf).2 = [] ∧
        (onIngress cd r buf).1.dest.numDropBadPickle = r.dest.numDropBadPickle + 1)) ∧
    (r.conn = none → r.dest.Spool = true → SpooledOrSlowDrop r buf (onIngress cd r buf)) ∧
    (r.conn = none → r.dest.Spool = false →
      (onIngress cd r buf).2 = [] ∧
      (onIngress cd r buf).1.dest.numDropNoConnNoSpool = r.dest.numDropNoConnNoSpool + 1) ∧
    (∀ x ∈ (onIngress cd r buf).2, x.isOffer = true) ∧
    ¬ placedInBoth (onIngress cd r buf).2 := by
  have hconn : ∀ c, r.conn = some c →
      (r.dest.Pickle = false → SentOrSlowDrop r c buf (onIngress cd r buf)) ∧
      (r.dest.Pickle = true → ∀ dp, cd.parseDataPoint buf = Except.ok dp →
        SentOrSlowDrop r c (cd.pickle dp) (onIngress cd r buf)) ∧
      (r.dest.Pickle = true → ∀ e, cd.parseDataPoint buf = Except.error e →
        (onIngress cd r buf).2 = [] ∧
        (onIngress cd r buf).1.dest.numDropBadPickle = r.dest.numDropBadPickle + 1) := by
    intro c hc
    rw [onIngress_conn cd r c buf hc]
    refine ⟨fun hp => ?_, fun hp dp hparse => ?_, fun hp e hparse => ?_⟩
    · rw [nonBlockingSend_plain cd r.dest c buf hp]
      constructor
      · intro hfree
        simp [hfree]
      · intro hfree
        simp [hfree]
    · rw [nonBlockingSend_pickled cd r.dest c buf dp hp hparse]
      constructor
      · intro hfree
        simp [hfree]
      · intro hfree
        simp [hfree]
    · rw [nonBlockingSend_rejected cd r.dest c buf e hp hparse]
      exact ⟨rfl, rfl⟩
  have hspool : r.conn = none → r.dest.Spool = true →
      SpooledOrSlowDrop r buf (onIngress cd r buf) := by
    intro hc hs
    constructor
    · intro hfree
      simp [onIngress, hc, hs, nonBlockingSpool, hfree]
    · intro hfree
      simp [onIngress, hc, hs, nonBlockingSpool, hfree]
  have hdrop : r.conn = none → r.dest.Spool = false →
      (onIngress cd r buf).2 = [] ∧
      (onIngress cd r buf).1.dest.numDropNoConnNoSpool = r.dest.numDropNoConnNoSpool + 1 := by
    intro hc hs
    simp [onIngress, hc, hs]
  -- the shape of the effect list, by cases on the state
  have hshape : (∃ k p a, (onIngress cd r buf).2 = [Effect.offerConnIn k p a]) ∨
      (∃ q a, (onIngress cd r buf).2 = [Effect.offerQueueInRT q a]) ∨
      (onIngress cd r buf).2 = [] := by
    cases hc : r.conn with
    | some c =>
      obtain ⟨h1, h2, h3⟩ := hconn c hc
      have hsd : ∀ p, SentOrSlowDrop r c p (onIngress cd r buf) →
          ∃ k p a, (onIngress cd r buf).2 = [Effect.offerConnIn k p a] := by
        intro p hp
        rcases Nat.eq_zero_or_pos c.inFree with h0 | hpos
        · exact ⟨_, _, _, (hp.2 h0).1⟩
        · exact ⟨_, _, _, (hp.1 hpos).1⟩
      cases hp : r.dest.Pickle with
      | false => exact Or.inl (hsd _ (h1 hp))
      | true =>
        cases hparse : cd.parseDataPoint buf with
        | ok dp => exact Or.inl (hsd _ (h2 hp dp hparse))
        | error e => exact Or.inr (Or.inr (h3 hp e hparse).1)
    | none =>
      cases hs : r.dest.Spool with
      | true =>
        have hsp := hspool hc hs
        rcases Nat.eq_zero_or_pos r.dest.queueInRTFree with h0 | hpos
        · exact Or.inr (Or.inl ⟨_, _, (hsp.2 h0).1⟩)
        · exact Or.inr (Or.inl ⟨_, _, (hsp.1 hpos).1⟩)
      | false => exact Or.inr (Or.inr (hdrop hc hs).1)
  refine ⟨hconn, hspool, hdrop, ?_, ?_⟩
  · intro x hx
    rcases hshape with ⟨k, p, a, h⟩ | ⟨q, a, h⟩ | h
    · rw [h] at hx
      simp at hx
      subst hx
      rfl
    · rw [h] at hx
      simp at hx
      subst hx
      rfl
    · rw [h] at hx
      simp at hx
  · rintro ⟨⟨k, p, h1⟩, ⟨q, h2⟩⟩
    rcases hshape with ⟨k1, p1, a, h⟩ | ⟨q1, a, h⟩ | h
    · rw [h] at h2
      simp at h2
    · rw [h] at h1
      simp at h1
    · rw [h] at h1
      simp at h1

/-- The amended decision table at work: a live connection with room, `Pickle`
off, one record in, one record enqueued. -/
theorem ingress_decision_table_witness :
    SentOrSlowDrop (sampleRelay sampleDest (some (sampleConn 1 true 5))) (sampleConn 1 true 5)
      [97] (onIngress sampleCodec (sampleRelay sampleDest (some (sampleConn 1 true 5))) [97]) :=
  ((ingress_decision_table sampleCodec (sampleRelay sampleDest (some (sampleConn 1 true 5)))
      [97]).1 (sampleConn 1 true 5) rfl).1 rfl

/-! ## The preamble and the replay guard -/

theorem detachDead_dest (r : Relay) : (detachDead r).1.dest = r.dest := by
  unfold detachDead
  split
  · split <;> rfl
  · rfl

theorem detachDead_returned (r : Relay) : (detachDead r).1.returned = r.returned := by
  unfold detachDead
  split
  · split <;> rfl
  · rfl

theorem detachDead_conn_isSome (r : Relay) :
    (detachDead r).1.conn.isSome = true ↔ ∃ c, r.conn = some c ∧ c.alive = true := by
  unfold detachDead
  cases hc : r.conn with
  | none => simp [hc]
  | some c =>
    cases ha : c.alive <;> simp [ha, hc]

theorem setToUnspool_dest (r : Relay) : (setToUnspool r).dest = r.dest := by
  unfold setToUnspool
  split <;> rfl

theorem setToUnspool_conn (r : Relay) : (setToUnspool r).conn = r.conn := by
  unfold setToUnspool
  split <;> rfl

theorem setToUnspool_returned (r : Relay) : (setToUnspool r).returned = r.returned := by
  unfold setToUnspool
  split <;> rfl

theorem setToUnspool_numConnUpdates (r : Relay) :
    (setToUnspool r).numConnUpdates = r.numConnUpdates := by
  unfold setToUnspool
  split <;> rfl

theorem setToUnspool_toUnspool (r : Relay) :
    (setToUnspool r).toUnspool = true ↔
      (r.conn.isSome = true ∧ r.dest.Spool = true ∧ r.dest.SlowLastLoop = false ∧
        r.dest.SlowNow = false) := by
  unfold setToUnspool
  split
  · rename_i h
    simpa [and_assoc] using h
  · rename_i h
    simpa [and_assoc] using h

theorem preamble_fst (r : Relay) : (preamble r).1 = setToUnspool (detachDead r).1 := rfl

theorem preamble_snd (r : Relay) : (preamble r).2 = (detachDead r).2 := rfl

theorem preamble_dest (r : Relay) : (preamble r).1.dest = r.dest := by
  rw [preamble_fst, setToUnspool_dest, detachDead_dest]

theorem preamble_toUnspool (r : Relay) :
    (preamble r).1.toUnspool = true ↔
      ((preamble r).1.conn.isSome = true ∧ r.dest.Spool = true ∧ r.dest.SlowLastLoop = false ∧
        r.dest.SlowNow = false) := by
  rw [preamble_fst, setToUnspool_toUnspool, setToUnspool_conn, detachDead_dest]

theorem iteration_eq (cd : Codec) (r : Relay) (e : Event) (h : r.returned = false) :
    iteration cd r e =
      (handle cd (preamble r).1 e).map fun out => (out.1, (preamble r).2 ++ out.2) := by
  unfold iteration
  simp only [h]
  cases handle cd (preamble r).1 e <;> rfl

theorem iteration_returned (cd : Codec) (r : Relay) (e : Event) (h : r.returned = true) :
    iteration cd r e = none := by
  simp [iteration, h]

theorem onUnspool_isSome (cd : Codec) (r : Relay) (buf : Record) :
    (onUnspool cd r buf).isSome = true ↔ r.toUnspool = true ∧ r.conn.isSome = true := by
  unfold onUnspool
  cases ht : r.toUnspool with
  | false => simp
  | true =>
    cases hc : r.conn <;> simp

theorem iteration_unspool_isSome (cd : Codec) (r : Relay) (buf : Record) :
    (iteration cd r (Event.unspool buf)).isSome = true ↔
      (r.returned = false ∧ (preamble r).1.toUnspool = true) := by
  cases hr : r.returned with
  | true => simp [iteration_returned cd r _ hr]
  | false =>
    rw [iteration_eq cd r _ hr]
    have hsome : ∀ (o : Option (Relay × List Effect)) (f : Relay × List Effect → Relay × List Effect),
        (o.map f).isSome = o.isSome := by
      intro o f
      cases o <;> rfl
    simp only [handle, hsome, onUnspool_isSome, true_and]
    constructor
    · exact fun h => h.1
    · intro h
      exact ⟨h, ((preamble_toUnspool r).1 h).1⟩

theorem onTick_effects (r : Relay) :
    (onTick r).2 = [Effect.goUpdateConn r.dest.Addr] ∨ (onTick r).2 = [] := by
  unfold onTick
  cases (r.conn.isNone && r.numConnUpdates == 0) <;> simp

/-- C3: at every iteration of `relay`, `toUnspool` is non-nil when the loop
enters the `select` if and only if `conn` is non-nil there (that is, it was
non-nil and alive at the top of the iteration), `Spool` is on, and `SlowNow`
and `SlowLastLoop` are both false; the replay branch runs exactly when the
loop has not returned and `toUnspool` is non-nil, so while `SlowNow` or
`SlowLastLoop` is true no record is read from the spool output. -/
theorem replay_enabled_iff (cd : Codec) (r : Relay) :
    ((preamble r).1.toUnspool = true ↔
      ((preamble r).1.conn.isSome = true ∧ r.dest.Spool = true ∧
        r.dest.SlowNow = false ∧ r.dest.SlowLastLoop = false)) ∧
    ((preamble r).1.conn.isSome = true ↔ ∃ c, r.conn = some c ∧ c.alive = true) ∧
    (preamble r).1.dest = r.dest ∧
    (∀ buf, (iteration cd r (Event.unspool buf)).isSome = true ↔
      (r.returned = false ∧ (preamble r).1.toUnspool = true)) ∧
    ((r.dest.SlowNow = true ∨ r.dest.SlowLastLoop = true) →
      ∀ buf, iteration cd r (Event.unspool buf) = none) := by
  have hiff := iteration_unspool_isSome cd r
  refine ⟨?_, ?_, preamble_dest r, hiff, ?_⟩
  · rw [preamble_toUnspool]
    tauto
  · rw [preamble_fst, setToUnspool_conn]
    exact detachDead_conn_isSome r
  · intro hslow buf
    cases hit : iteration cd r (Event.unspool buf) with
    | none => rfl
    | some out =>
      have h1 := (hiff buf).1 (by simp [hit])
      have h2 := (preamble_toUnspool r).1 h1.2
      rcases hslow with h | h
      · rw [h2.2.2.2] at h
        cases h
      · rw [h2.2.2.1] at h
        cases h

/-- A slow window closes the replay branch: with `SlowNow` set, a live
connection and `Spool` on, the loop cannot take a record from the spool. -/
theorem replay_enabled_iff_witness :
    iteration sampleCodec
      (sampleRelay { sampleDest with SlowNow := true } (some (sampleConn 1 true 5)))
      (Event.unspool [97]) = none :=
  (replay_enabled_iff sampleCodec
    (sampleRelay { sampleDest with SlowNow := true } (some (sampleConn 1 true 5)))).2.2.2.2
    (Or.inl rfl) [97]

/-! ## The tick and connection-update handlers -/

/-- C6: in every engine state the tick handler starts `updateConn(dest.Addr)`
if and only if `conn` is nil and `numConnUpdates` is 0 (and starts nothing
else); afterwards `SlowLastLoop` is the value `SlowNow` had before the tick
and `SlowNow` is false; `conn`, `Online` and `numConnUpdates` are unchanged. -/
theorem tick_handler (cd : Codec) (r : Relay) :
    handle cd r Event.tick = some (onTick r) ∧
    (Effect.goUpdateConn r.dest.Addr ∈ (onTick r).2 ↔ (r.conn = none ∧ r.numConnUpdates = 0)) ∧
    ((onTick r).2 = [Effect.goUpdateConn r.dest.Addr] ∨ (onTick r).2 = []) ∧
    (onTick r).1.dest.SlowLastLoop = r.dest.SlowNow ∧
    (onTick r).1.dest.SlowNow = false ∧
    (onTick r).1.conn = r.conn ∧
    (onTick r).1.dest.Online = r.dest.Online ∧
    (onTick r).1.numConnUpdates = r.numConnUpdates := by
  refine ⟨rfl, ?_, ?_, rfl, rfl, rfl, rfl, rfl⟩
  · unfold onTick
    by_cases h : r.conn = none ∧ r.numConnUpdates = 0
    · simp [h.1, h.2]
    · have h2 : (r.conn.isNone && r.numConnUpdates == 0) = false := by
        cases hc : r.conn with
        | some c => simp
        | none =>
          simp only [Option.isNone_none, Bool.true_and, beq_eq_false_iff_ne, ne_eq]
          exact fun hn => h ⟨hc, hn⟩
      simp [h2, h]
  · exact onTick_effects r

/-- C7: in every engine state and for every value `c` received on
`connUpdates`, after the handler `conn` is `c` and `Online` is true exactly
when `c` is non-nil; a non-nil `c` leaves `SlowNow` and `SlowLastLoop` false,
a nil `c` leaves them as they were. -/
theorem connUpdates_handler (cd : Codec) (r : Relay) (c : Option Conn) :
    handle cd r (Event.connUpdates c) = some (onConnUpdates r c) ∧
    (onConnUpdates r c).1.conn = c ∧
    (onConnUpdates r c).1.dest.Online = c.isSome ∧
    (c.isSome = true →
      (onConnUpdates r c).1.dest.SlowNow = false ∧
      (onConnUpdates r c).1.dest.SlowLastLoop = false) ∧
    (c = none →
      (onConnUpdates r c).1.dest.SlowNow = r.dest.SlowNow ∧
      (onConnUpdates r c).1.dest.SlowLastLoop = r.dest.SlowLastLoop) := by
  refine ⟨rfl, rfl, ?_, ?_, ?_⟩
  · unfold onConnUpdates
    cases c <;> simp
  · intro h
    unfold onConnUpdates
    simp [h]
  · intro h
    subst h
    simp [onConnUpdates]

/-- A new live connection clears a slow window that was open. -/
theorem connUpdates_handler_witness :
    (onConnUpdates
        (sampleRelay { sampleDest with SlowNow := true, SlowLastLoop := true } none)
        (some (sampleConn 2 true 5))).1.dest.SlowNow = false ∧
    (onConnUpdates
        (sampleRelay { sampleDest with SlowNow := true, SlowLastLoop := true } none)
        (some (sampleConn 2 true 5))).1.dest.SlowLastLoop = false :=
  (connUpdates_handler sampleCodec
    (sampleRelay { sampleDest with SlowNow := true, SlowLastLoop := true } none)
    (some (sampleConn 2 true 5))).2.2.2.1 rfl

/-! ## Re-encoding in `nonBlockingSend` -/

/-- C9: with `Pickle` on, a record the parser rejects adds one to
`numDropBadPickle`, causes no send on `conn.In`, and leaves `SlowNow`,
`numBuffered` and `numDropSlowConn` as they were; a record the parser accepts
is offered to `conn.In` as the pickled encoding of the parsed data point (so
the original bytes are not what is offered, unless the encoding happens to
equal them).  With `Pickle` off the original bytes are offered unchanged and
`numDropBadPickle` stays as it was. -/
theorem nonBlockingSend_reencodes (cd : Codec) (d : Destination) (c : Conn) (buf : Record) :
    (d.Pickle = true → ∀ e, cd.parseDataPoint buf = Except.error e →
      (nonBlockingSend cd d c buf).1.numDropBadPickle = d.numDropBadPickle + 1 ∧
      (nonBlockingSend cd d c buf).2.2 = [] ∧
      (nonBlockingSend cd d c buf).1.SlowNow = d.SlowNow ∧
      (nonBlockingSend cd d c buf).1.numBuffered = d.numBuffered ∧
      (nonBlockingSend cd d c buf).1.numDropSlowConn = d.numDropSlowConn) ∧
    (d.Pickle = true → ∀ dp, cd.parseDataPoint buf = Except.ok dp →
      (nonBlockingSend cd d c buf).2.2
        = [Effect.offerConnIn c.id (cd.pickle dp) (decide (0 < c.inFree))] ∧
      (cd.pickle dp ≠ buf →
        ∀ k a, Effect.offerConnIn k buf a ∉ (nonBlockingSend cd d c buf).2.2) ∧
      (nonBlockingSend cd d c buf).1.numDropBadPickle = d.numDropBadPickle) ∧
    (d.Pickle = false →
      (nonBlockingSend cd d c buf).2.2
        = [Effect.offerConnIn c.id buf (decide (0 < c.inFree))] ∧
      (nonBlockingSend cd d c buf).1.numDropBadPickle = d.numDropBadPickle) := by
  refine ⟨fun hp e hparse => ?_, fun hp dp hparse => ?_, fun hp => ?_⟩
  · rw [nonBlockingSend_rejected cd d c buf e hp hparse]
    exact ⟨rfl, rfl, rfl, rfl, rfl⟩
  · rw [nonBlockingSend_pickled cd d c buf dp hp hparse]
    by_cases hfree : 0 < c.inFree
    · rw [if_pos hfree, decide_eq_true hfree]
      refine ⟨rfl, fun hne k a hmem => ?_, rfl⟩
      simp only [List.mem_singleton, Effect.offerConnIn.injEq] at hmem
      exact hne hmem.2.1.symm
    · rw [if_neg hfree, decide_eq_false hfree]
      refine ⟨rfl, fun hne k a hmem => ?_, rfl⟩
      simp only [List.mem_singleton, Effect.offerConnIn.injEq] at hmem
      exact hne hmem.2.1.symm
  · rw [nonBlockingSend_plain cd d c buf hp]
    by_cases hfree : 0 < c.inFree
    · rw [if_pos hfree, decide_eq_true hfree]
      exact ⟨rfl, rfl⟩
    · rw [if_neg hfree, decide_eq_false hfree]
      exact ⟨rfl, rfl⟩

/-- A three-byte line under `Pickle` goes out framed, not as it came in. -/
theorem nonBlockingSend_reencodes_witness :
    (nonBlockingSend sampleCodec { sampleDest with Pickle := true } (sampleConn 1 true 5)
        [97, 98, 99]).2.2
      = [Effect.offerConnIn 1 [128, 97, 98, 99] true] :=
  ((nonBlockingSend_reencodes sampleCodec { sampleDest with Pickle := true }
      (sampleConn 1 true 5) [97, 98, 99]).2.1 rfl [97, 98, 99] rfl).1

/-! ## A dead connection is detached for good -/

theorem nonBlockingSend_id (cd : Codec) (d : Destination) (c : Conn) (buf : Record) :
    (nonBlockingSend cd d c buf).2.1.id = c.id := by
  unfold nonBlockingSend
  simp only []
  split
  · split
    · rfl
    · split <;> rfl
  · split <;> rfl

theorem nonBlockingSend_effects (cd : Codec) (d : Destination) (c : Conn) (buf : Record) :
    ∀ x ∈ (nonBlockingSend cd d c buf).2.2, ∃ p a, x = Effect.offerConnIn c.id p a := by
  unfold nonBlockingSend
  simp only []
  intro x hx
  split at hx
  · split at hx
    · simp at hx
    · split at hx
      · simp only [List.mem_singleton] at hx
        exact ⟨_, _, hx⟩
      · simp only [List.mem_singleton] at hx
        exact ⟨_, _, hx⟩
  · split at hx
    · simp only [List.mem_singleton] at hx
      exact ⟨_, _, hx⟩
    · simp only [List.mem_singleton] at hx
      exact ⟨_, _, hx⟩

theorem nonBlockingSpool_effects (d : Destination) (buf : Record) :
    ∀ x ∈ (nonBlockingSpool d buf).2, ∃ a, x = Effect.offerQueueInRT buf a := by
  unfold nonBlockingSpool
  intro x hx
  split at hx
  · simp only [List.mem_singleton] at hx
    exact ⟨_, hx⟩
  · simp only [List.mem_singleton] at hx
    exact ⟨_, hx⟩

theorem notConn_none (k : Nat) (r : Relay) (h : r.conn = none) : NotConn k r := by
  intro c hc
  rw [h] at hc
  cases hc

theorem notConn_of_conn_eq (k : Nat) (r r1 : Relay) (h : r1.conn = r.conn)
    (hn : NotConn k r) : NotConn k r1 := by
  intro c hc
  exact hn c (h ▸ hc)

theorem detachDead_conn (r : Relay) :
    (detachDead r).1.conn = none ∨ (detachDead r).1.conn = r.conn := by
  unfold detachDead
  split
  · split
    · exact Or.inl rfl
    · exact Or.inr rfl
  · exact Or.inr rfl

theorem detachDead_notConn (k : Nat) (r : Relay) (h : NotConn k r) :
    NotConn k (detachDead r).1 := by
  rcases detachDead_conn r with hc | hc
  · exact notConn_none k _ hc
  · exact notConn_of_conn_eq k r _ hc h

theorem onShutdown_conn (r : Relay) : (onShutdown r).1.conn = r.conn := by
  unfold onShutdown
  split <;> rfl

theorem onIngress_conn_none (cd : Codec) (r : Relay) (buf : Record) (hc : r.conn = none) :
    (onIngress cd r buf).1.conn = none := by
  unfold onIngress
  simp only [hc]
  split <;> rfl

theorem onIngress_effects_none (cd : Codec) (r : Relay) (buf : Record) (hc : r.conn = none) :
    ∀ x ∈ (onIngress cd r buf).2, ∃ a, x = Effect.offerQueueInRT buf a := by
  unfold onIngress
  simp only [hc]
  intro x hx
  split at hx
  · exact nonBlockingSpool_effects r.dest buf x hx
  · simp at hx

theorem detachDead_effects (k : Nat) (r : Relay) :
    ∀ x ∈ (detachDead r).2, x.isOfferTo k = false := by
  unfold detachDead
  intro x hx
  cases hc : r.conn with
  | none =>
    simp [hc] at hx
  | some c =>
    cases ha : c.alive
    · cases hs : r.dest.Spool
      · simp [hc, ha, hs] at hx
      · simp [hc, ha, hs] at hx
        subst hx
        rfl
    · simp [hc, ha] at hx

theorem sendTo_keeps (cd : Codec) (k : Nat) (r : Relay) (c : Conn) (buf : Record)
    (hid : c.id ≠ k) :
    NotConn k { r with dest := (nonBlockingSend cd r.dest c buf).1,
                       conn := some (nonBlockingSend cd r.dest c buf).2.1 } ∧
    ∀ x ∈ (nonBlockingSend cd r.dest c buf).2.2, x.isOfferTo k = false := by
  constructor
  · intro c1 hc1
    simp only [Option.some.injEq] at hc1
    rw [← hc1, nonBlockingSend_id]
    exact hid
  · intro x hx
    obtain ⟨p, a, hxe⟩ := nonBlockingSend_effects cd r.dest c buf x hx
    subst hxe
    simp only [Effect.isOfferTo, beq_eq_false_iff_ne, ne_eq]
    exact hid

theorem handle_keeps (cd : Codec) (k : Nat) (r : Relay) (e : Event) (out : Relay × List Effect)
    (h : NotConn k r) (hpub : (Step.iter e).publishes k = false)
    (hh : handle cd r e = some out) :
    NotConn k out.1 ∧ ∀ x ∈ out.2, x.isOfferTo k = false := by
  cases e with
  | inConnUpdate b =>
    simp only [handle, Option.some.injEq] at hh
    subst hh
    unfold onInConnUpdate
    cases b
    · exact ⟨h, by simp⟩
    · exact ⟨h, by simp⟩
  | connUpdates c1 =>
    simp only [handle, Option.some.injEq] at hh
    subst hh
    refine ⟨?_, by simp [onConnUpdates]⟩
    intro c2 hc2
    simp only [onConnUpdates] at hc2
    subst hc2
    simpa [Step.publishes] using hpub
  | tick =>
    simp only [handle, Option.some.injEq] at hh
    subst hh
    refine ⟨h, ?_⟩
    intro x hx
    unfold onTick at hx
    simp only [] at hx
    split at hx
    · simp only [List.mem_singleton] at hx
      subst hx
      rfl
    · simp at hx
  | flush =>
    simp only [handle, Option.some.injEq] at hh
    subst hh
    unfold onFlush
    cases hc : r.conn with
    | none =>
      refine ⟨h, ?_⟩
      intro x hx
      simp only [List.mem_singleton] at hx
      subst hx
      rfl
    | some c =>
      refine ⟨h, ?_⟩
      intro x hx
      simp only [List.mem_cons, List.mem_singleton, List.not_mem_nil, or_false] at hx
      rcases hx with hx | hx <;> subst hx <;> rfl
  | shutdown =>
    simp only [handle, Option.some.injEq] at hh
    subst hh
    refine ⟨notConn_of_conn_eq k r _ (onShutdown_conn r) h, ?_⟩
    unfold onShutdown
    cases hc : r.conn with
    | none => simp
    | some c =>
      intro x hx
      simp only [List.mem_cons, List.mem_singleton, List.not_mem_nil, or_false] at hx
      rcases hx with hx | hx <;> subst hx <;> rfl
  | unspool buf =>
    simp only [handle, onUnspool] at hh
    cases ht : r.toUnspool with
    | false => simp [ht] at hh
    | true =>
      cases hc : r.conn with
      | none => simp [ht, hc] at hh
      | some c =>
        simp only [ht, hc, if_true, Option.some.injEq] at hh
        subst hh
        exact sendTo_keeps cd k r c buf (h c hc)
  | ingress buf =>
    simp only [handle, Option.some.injEq] at hh
    subst hh
    cases hc : r.conn with
    | some c =>
      rw [onIngress_conn cd r c buf hc]
      exact sendTo_keeps cd k r c buf (h c hc)
    | none =>
      refine ⟨notConn_none k _ (onIngress_conn_none cd r buf hc), ?_⟩
      intro x hx
      obtain ⟨a, hxe⟩ := onIngress_effects_none cd r buf hc x hx
      subst hxe
      rfl

theorem iteration_keeps (cd : Codec) (k : Nat) (r : Relay) (e : Event)
    (out : Relay × List Effect) (h : NotConn k (detachDead r).1)
    (hpub : (Step.iter e).publishes k = false) (hit : iteration cd r e = some out) :
    NotConn k out.1 ∧ ∀ x ∈ out.2, x.isOfferTo k = false := by
  cases hr : r.returned with
  | true =>
    rw [iteration_returned cd r e hr] at hit
    cases hit
  | false =>
    rw [iteration_eq cd r e hr] at hit
    cases hh : handle cd (preamble r).1 e with
    | none =>
      rw [hh] at hit
      cases hit
    | some o =>
      rw [hh] at hit
      simp only [Option.map_some', Option.some.injEq] at hit
      subst hit
      have hpre : NotConn k (preamble r).1 :=
        notConn_of_conn_eq k _ _ (by rw [preamble_fst, setToUnspool_conn]) h
      obtain ⟨h1, h2⟩ := handle_keeps cd k (preamble r).1 e o hpre hpub hh
      refine ⟨h1, ?_⟩
      intro x hx
      rcases List.mem_append.1 hx with hx | hx
      · rw [preamble_snd] at hx
        exact detachDead_effects k r x hx
      · exact h2 x hx

theorem applyEnv_notConn (k : Nat) (r : Relay) (m : EnvMove) (h : NotConn k r) :
    NotConn k (applyEnv r m) := by
  cases m with
  | connState alive inFree flushResult redo =>
    unfold applyEnv
    cases hc : r.conn with
    | none => exact h
    | some c =>
      intro c1 hc1
      simp only [Option.some.injEq] at hc1
      subst hc1
      exact h c hc
  | queueInRT free =>
    exact notConn_of_conn_eq k r _ rfl h

theorem run_keeps (cd : Codec) (k : Nat) :
    ∀ (steps : List Step) (r : Relay) (out : Relay × List Effect),
      NotConn k r → (∀ s ∈ steps, s.publishes k = false) → run cd r steps = some out →
      ∀ x ∈ out.2, x.isOfferTo k = false := by
  intro steps
  induction steps with
  | nil =>
    intro r out _ _ hrun
    simp only [run, Option.some.injEq] at hrun
    subst hrun
    simp
  | cons s rest ih =>
    intro r out hn hpub hrun
    unfold run at hrun
    cases hs : step cd r s with
    | none =>
      rw [hs] at hrun
      cases hrun
    | some o1 =>
      rw [hs] at hrun
      cases hr : run cd o1.1 rest with
      | none =>
        simp only [hr] at hrun
        cases hrun
      | some o2 =>
        simp only [hr, Option.some.injEq] at hrun
        subst hrun
        have hstep : NotConn k o1.1 ∧ ∀ x ∈ o1.2, x.isOfferTo k = false := by
          cases s with
          | env m =>
            simp only [step, Option.some.injEq] at hs
            subst hs
            exact ⟨applyEnv_notConn k r m hn, by simp⟩
          | iter e =>
            exact iteration_keeps cd k r e o1 (detachDead_notConn k r hn)
              (hpub _ (List.mem_cons_self _ _)) hs
        intro x hx
        rcases List.mem_append.1 hx with hx | hx
        · exact hstep.2 x hx
        · exact ih o1.1 o2 hstep.1 (fun s hs => hpub s (List.mem_cons_of_mem _ hs)) hr x hx

/-- C8: at the top of an iteration, a connection that is present and not alive
is dropped (`conn` is nil when the `select` is entered), a redo collector is
started for it exactly when `Spool` is on, and in no execution that goes on
from there, this iteration included, is a record ever offered to that
connection again, as long as `connUpdates` does not hand the very same
connection back (every `updateConn` publishes the connection it has just
made).  When `conn` is nil or alive the liveness check (lines 305-312)
changes nothing and starts nothing, and all the iteration does before the
`select` is to set `toUnspool` afresh. -/
theorem dead_conn_is_detached (cd : Codec) (r : Relay) :
    (∀ c, r.conn = some c → c.alive = false →
      (detachDead r).1 = { r with conn := none } ∧
      (Effect.goCollectRedo c.id ∈ (detachDead r).2 ↔ r.dest.Spool = true) ∧
      (∀ x ∈ (detachDead r).2, x = Effect.goCollectRedo c.id) ∧
      (preamble r).1.conn = none ∧
      (∀ e rest out, (∀ s ∈ Step.iter e :: rest, s.publishes c.id = false) →
        run cd r (Step.iter e :: rest) = some out →
        ∀ x ∈ out.2, x.isOfferTo c.id = false)) ∧
    ((r.conn = none ∨ ∃ c, r.conn = some c ∧ c.alive = true) →
      detachDead r = (r, []) ∧ preamble r = (setToUnspool r, [])) := by
  constructor
  · intro c hc hdead
    have hdet : (detachDead r).1 = { r with conn := none } := by
      simp [detachDead, hc, hdead]
    refine ⟨hdet, ?_, ?_, ?_, ?_⟩
    · cases hs : r.dest.Spool <;> simp [detachDead, hc, hdead, hs]
    · intro x hx
      cases hs : r.dest.Spool <;> simp [detachDead, hc, hdead, hs] at hx
      exact hx
    · rw [preamble_fst, setToUnspool_conn, hdet]
    · intro e rest out hpub hrun
      unfold run at hrun
      cases hs : step cd r (Step.iter e) with
      | none =>
        rw [hs] at hrun
        cases hrun
      | some o1 =>
        rw [hs] at hrun
        cases hr : run cd o1.1 rest with
        | none =>
          simp only [hr] at hrun
          cases hrun
        | some o2 =>
          simp only [hr, Option.some.injEq] at hrun
          subst hrun
          have hdn : NotConn c.id (detachDead r).1 := notConn_none _ _ (by rw [hdet])
          obtain ⟨h1, h2⟩ := iteration_keeps cd c.id r e o1 hdn
            (hpub _ (List.mem_cons_self _ _)) hs
          intro x hx
          rcases List.mem_append.1 hx with hx | hx
          · exact h2 x hx
          · exact run_keeps cd c.id rest o1.1 o2 h1
              (fun s hs => hpub s (List.mem_cons_of_mem _ hs)) hr x hx
  · intro h
    have hd : detachDead r = (r, []) := by
      rcases h with hc | ⟨c, hc, ha⟩
      · simp [detachDead, hc]
      · simp [detachDead, hc, ha]
    exact ⟨hd, by simp only [preamble, hd]⟩

/-- On `deadConnTrace`, starting with dead connection 1 and `Spool` on: the
first record goes to the spool, the second to connection 2, none to 1. -/
theorem dead_conn_is_detached_witness :
    ∃ out, run sampleCodec (sampleRelay sampleDest (some (sampleConn 1 false 5))) deadConnTrace
        = some out ∧
      Effect.offerConnIn 2 [98] true ∈ out.2 ∧
      ∀ x ∈ out.2, x.isOfferTo 1 = false := by
  have hsome : (run sampleCodec (sampleRelay sampleDest (some (sampleConn 1 false 5)))
      deadConnTrace).isSome = true := by decide
  obtain ⟨out, hout⟩ := Option.isSome_iff_exists.1 hsome
  refine ⟨out, hout, ?_, ?_⟩
  · have h2 : (run sampleCodec (sampleRelay sampleDest (some (sampleConn 1 false 5)))
        deadConnTrace).map (fun o => decide (Effect.offerConnIn 2 [98] true ∈ o.2))
        = some true := by decide
    rw [hout] at h2
    simpa using h2
  · exact ((dead_conn_is_detached sampleCodec
      (sampleRelay sampleDest (some (sampleConn 1 false 5)))).1 (sampleConn 1 false 5) rfl rfl).2.2.2.2
      (Event.ingress [97]) _ out (by decide) hout

/-! ## The slow window and spool replay -/

theorem run_append (cd : Codec) :
    ∀ (a b : List Step) (r : Relay),
      run cd r (a ++ b) =
        match run cd r a with
        | none => none
        | some (r1, e1) =>
          match run cd r1 b with
          | none => none
          | some (r2, e2) => some (r2, e1 ++ e2) := by
  intro a
  induction a with
  | nil =>
    intro b r
    simp only [List.nil_append, run]
    cases run cd r b <;> simp
  | cons s rest ih =>
    intro b r
    have hcons : ∀ (r : Relay) (l : List Step), run cd r (s :: l) =
        match step cd r s with
        | none => none
        | some (r1, eff1) =>
          match run cd r1 l with
          | none => none
          | some (r2, eff2) => some (r2, eff1 ++ eff2) := fun _ _ => rfl
    rw [List.cons_append, hcons, hcons]
    cases hs : step cd r s with
    | none => rfl
    | some o1 =>
      simp only []
      rw [ih b o1.1]
      cases hr : run cd o1.1 rest with
      | none => rfl
      | some o2 =>
        simp only []
        cases hb : run cd o2.1 b with
        | none => rfl
        | some o3 => simp [List.append_assoc]

theorem run_single (cd : Codec) (r : Relay) (s : Step) :
    run cd r [s] = step cd r s := by
  simp only [run]
  cases step cd r s <;> simp

/-- Splits a run of `steps ++ [s]` into the run of `steps` and the last step. -/
theorem run_snoc (cd : Codec) (r : Relay) (steps : List Step) (s : Step)
    (out : Relay × List Effect) (h : run cd r (steps ++ [s]) = some out) :
    ∃ rm em eo, run cd r steps = some (rm, em) ∧ step cd rm s = some (out.1, eo) ∧
      out.2 = em ++ eo := by
  rw [run_append] at h
  cases hr : run cd r steps with
  | none =>
    rw [hr] at h
    cases h
  | some o1 =>
    rw [hr] at h
    simp only [run_single] at h
    cases hs : step cd o1.1 s with
    | none =>
      rw [hs] at h
      cases h
    | some o2 =>
      rw [hs] at h
      simp only [Option.some.injEq] at h
      subst h
      exact ⟨o1.1, o1.2, o2.2, rfl, hs, rfl⟩

theorem nonBlockingSend_flags (cd : Codec) (d : Destination) (c : Conn) (buf : Record) :
    (nonBlockingSend cd d c buf).1.SlowLastLoop = d.SlowLastLoop ∧
    ((∃ x ∈ (nonBlockingSend cd d c buf).2.2, x.isSlowConnDrop = true) →
      (nonBlockingSend cd d c buf).1.SlowNow = true) ∧
    ((∀ x ∈ (nonBlockingSend cd d c buf).2.2, x.isSlowConnDrop = false) →
      (nonBlockingSend cd d c buf).1.SlowNow = d.SlowNow) := by
  have hsend : ∀ p : Record,
      (if 0 < c.inFree then
        (({ d with numBuffered := d.numBuffered + 1 }, { c with inFree := c.inFree - 1 },
         [Effect.offerConnIn c.id p true]) : Destination × Conn × List Effect)
      else
        ({ d with numDropSlowConn := d.numDropSlowConn + 1, SlowNow := true }, c,
         [Effect.offerConnIn c.id p false])) = nonBlockingSend cd d c buf →
      (nonBlockingSend cd d c buf).1.SlowLastLoop = d.SlowLastLoop ∧
      ((∃ x ∈ (nonBlockingSend cd d c buf).2.2, x.isSlowConnDrop = true) →
        (nonBlockingSend cd d c buf).1.SlowNow = true) ∧
      ((∀ x ∈ (nonBlockingSend cd d c buf).2.2, x.isSlowConnDrop = false) →
        (nonBlockingSend cd d c buf).1.SlowNow = d.SlowNow) := by
    intro p hp
    rw [← hp]
    by_cases hfree : 0 < c.inFree
    · rw [if_pos hfree]
      refine ⟨rfl, ?_, fun _ => rfl⟩
      rintro ⟨x, hx, hd⟩
      simp only [List.mem_singleton] at hx
      subst hx
      cases hd
    · rw [if_neg hfree]
      refine ⟨rfl, fun _ => rfl, ?_⟩
      intro hall
      have := hall _ (List.mem_singleton_self _)
      cases this
  cases hp : d.Pickle with
  | false => exact hsend buf (nonBlockingSend_plain cd d c buf hp).symm
  | true =>
    cases hparse : cd.parseDataPoint buf with
    | ok dp => exact hsend (cd.pickle dp) (nonBlockingSend_pickled cd d c buf dp hp hparse).symm
    | error e =>
      rw [nonBlockingSend_rejected cd d c buf e hp hparse]
      refine ⟨rfl, ?_, fun _ => rfl⟩
      rintro ⟨x, hx, _⟩
      cases hx

/-- What one `select` branch does to the slow-window flags. -/
theorem handle_flags (cd : Codec) (r : Relay) (e : Event) (out : Relay × List Effect)
    (hh : handle cd r e = some out) :
    ((∃ x ∈ out.2, x.isSlowConnDrop = true) → out.1.dest.SlowNow = true) ∧
    (e ≠ Event.tick → (Step.iter e).publishesLive = false →
      (∀ x ∈ out.2, x.isSlowConnDrop = false) →
      out.1.dest.SlowNow = r.dest.SlowNow ∧ out.1.dest.SlowLastLoop = r.dest.SlowLastLoop) := by
  have hnil : ∀ (o : Relay × List Effect), o.2 = [] →
      ¬ ∃ x ∈ o.2, x.isSlowConnDrop = true := by
    rintro o ho ⟨x, hx, _⟩
    rw [ho] at hx
    cases hx
  cases e with
  | inConnUpdate b =>
    simp only [handle, Option.some.injEq] at hh
    subst hh
    cases b
    · exact ⟨fun h => absurd h (hnil _ rfl), fun _ _ _ => ⟨rfl, rfl⟩⟩
    · exact ⟨fun h => absurd h (hnil _ rfl), fun _ _ _ => ⟨rfl, rfl⟩⟩
  | connUpdates c1 =>
    simp only [handle, Option.some.injEq] at hh
    subst hh
    refine ⟨fun h => absurd h (hnil _ rfl), fun _ hpub _ => ?_⟩
    cases c1 with
    | none => exact ⟨rfl, rfl⟩
    | some c => cases hpub
  | tick =>
    simp only [handle, Option.some.injEq] at hh
    subst hh
    refine ⟨?_, fun hne => absurd rfl hne⟩
    rintro ⟨x, hx, hd⟩
    rcases onTick_effects r with h | h
    · rw [h] at hx
      simp only [List.mem_singleton] at hx
      subst hx
      cases hd
    · rw [h] at hx
      cases hx
  | flush =>
    simp only [handle, Option.some.injEq] at hh
    subst hh
    unfold onFlush
    cases hc : r.conn with
    | none =>
      refine ⟨?_, fun _ _ _ => ⟨rfl, rfl⟩⟩
      rintro ⟨x, hx, hd⟩
      simp only [List.mem_singleton] at hx
      subst hx
      cases hd
    | some c =>
      refine ⟨?_, fun _ _ _ => ⟨rfl, rfl⟩⟩
      rintro ⟨x, hx, hd⟩
      simp only [List.mem_cons, List.mem_singleton, List.not_mem_nil, or_false] at hx
      rcases hx with hx | hx <;> subst hx <;> cases hd
  | shutdown =>
    simp only [handle, Option.some.injEq] at hh
    subst hh
    unfold onShutdown
    cases hc : r.conn with
    | none => exact ⟨fun h => absurd h (hnil _ rfl), fun _ _ _ => ⟨rfl, rfl⟩⟩
    | some c =>
      refine ⟨?_, fun _ _ _ => ⟨rfl, rfl⟩⟩
      rintro ⟨x, hx, hd⟩
      simp only [List.mem_cons, List.mem_singleton, List.not_mem_nil, or_false] at hx
      rcases hx with hx | hx <;> subst hx <;> cases hd
  | unspool buf =>
    simp only [handle, onUnspool] at hh
    cases ht : r.toUnspool with
    | false => simp [ht] at hh
    | true =>
      cases hc : r.conn with
      | none => simp [ht, hc] at hh
      | some c =>
        simp only [ht, hc, if_true, Option.some.injEq] at hh
        subst hh
        obtain ⟨h1, h2, h3⟩ := nonBlockingSend_flags cd r.dest c buf
        exact ⟨h2, fun _ _ hno => ⟨h3 hno, h1⟩⟩
  | ingress buf =>
    simp only [handle, Option.some.injEq] at hh
    subst hh
    cases hc : r.conn with
    | some c =>
      rw [onIngress_conn cd r c buf hc]
      obtain ⟨h1, h2, h3⟩ := nonBlockingSend_flags cd r.dest c buf
      exact ⟨h2, fun _ _ hno => ⟨h3 hno, h1⟩⟩
    | none =>
      constructor
      · rintro ⟨x, hx, hd⟩
        obtain ⟨a, hxe⟩ := onIngress_effects_none cd r buf hc x hx
        subst hxe
        cases hd
      · intro _ _ _
        unfold onIngress
        simp only [hc]
        cases hs : r.dest.Spool with
        | false => exact ⟨rfl, rfl⟩
        | true =>
          simp only [if_true, nonBlockingSpool]
          split <;> exact ⟨rfl, rfl⟩

theorem detachDead_no_drop (r : Relay) : ∀ x ∈ (detachDead r).2, x.isSlowConnDrop = false := by
  unfold detachDead
  intro x hx
  cases hc : r.conn with
  | none =>
    simp [hc] at hx
  | some c =>
    cases ha : c.alive
    · cases hs : r.dest.Spool
      · simp [hc, ha, hs] at hx
      · simp [hc, ha, hs] at hx
        subst hx
        rfl
    · simp [hc, ha] at hx

theorem applyEnv_flags (r : Relay) (m : EnvMove) :
    (applyEnv r m).dest.SlowNow = r.dest.SlowNow ∧
    (applyEnv r m).dest.SlowLastLoop = r.dest.SlowLastLoop := by
  cases m with
  | connState alive inFree flushResult redo =>
    unfold applyEnv
    cases r.conn <;> exact ⟨rfl, rfl⟩
  | queueInRT free => exact ⟨rfl, rfl⟩

/-- What one step of an execution does to the slow-window flags. -/
theorem step_flags (cd : Codec) (r : Relay) (s : Step) (out : Relay × List Effect)
    (hs : step cd r s = some out) :
    ((∃ x ∈ out.2, x.isSlowConnDrop = true) → out.1.dest.SlowNow = true) ∧
    (s ≠ Step.iter Event.tick → s.publishesLive = false →
      (∀ x ∈ out.2, x.isSlowConnDrop = false) →
      out.1.dest.SlowNow = r.dest.SlowNow ∧ out.1.dest.SlowLastLoop = r.dest.SlowLastLoop) ∧
    (s = Step.iter Event.tick →
      out.1.dest.SlowNow = false ∧ out.1.dest.SlowLastLoop = r.dest.SlowNow) := by
  cases s with
  | env m =>
    simp only [step, Option.some.injEq] at hs
    subst hs
    refine ⟨?_, fun _ _ _ => applyEnv_flags r m, fun h => by cases h⟩
    rintro ⟨x, hx, _⟩
    cases hx
  | iter e =>
    simp only [step] at hs
    cases hr : r.returned with
    | true =>
      rw [iteration_returned cd r e hr] at hs
      cases hs
    | false =>
      rw [iteration_eq cd r e hr] at hs
      cases hh : handle cd (preamble r).1 e with
      | none =>
        rw [hh] at hs
        cases hs
      | some o =>
        rw [hh] at hs
        simp only [Option.map_some', Option.some.injEq] at hs
        subst hs
        obtain ⟨h1, h2⟩ := handle_flags cd (preamble r).1 e o hh
        rw [preamble_dest] at h2
        refine ⟨?_, ?_, ?_⟩
        · rintro ⟨x, hx, hd⟩
          rcases List.mem_append.1 hx with hx | hx
          · rw [preamble_snd] at hx
            rw [detachDead_no_drop r x hx] at hd
            cases hd
          · exact h1 ⟨x, hx, hd⟩
        · intro hne hpub hno
          exact h2 (fun he => hne (by rw [he])) hpub
            (fun x hx => hno x (List.mem_append.2 (Or.inr hx)))
        · intro he
          simp only [Step.iter.injEq] at he
          subst he
          simp only [handle, Option.some.injEq] at hh
          subst hh
          refine ⟨rfl, ?_⟩
          show (preamble r).1.dest.SlowNow = r.dest.SlowNow
          rw [preamble_dest]

/-- A record can be read from the spool only with both flags down. -/
theorem step_unspool_flags (cd : Codec) (r : Relay) (buf : Record)
    (h : (step cd r (Step.iter (Event.unspool buf))).isSome = true) :
    r.dest.SlowNow = false ∧ r.dest.SlowLastLoop = false := by
  have h1 := (iteration_unspool_isSome cd r buf).1 h
  have h2 := (preamble_toUnspool r).1 h1.2
  exact ⟨h2.2.2.2, h2.2.2.1⟩

/-- The invariant behind the slow window: starting with `SlowNow` set and as
long as no live connection is published, `SlowNow` can only be down again
after a tick with no slow drop since, and both flags can only be down after
two consecutive ticks with no slow drop between them. -/
theorem slow_window_invariant (cd : Codec) (r1 : Relay) (hslow : r1.dest.SlowNow = true) :
    ∀ steps : List Step, (∀ s ∈ steps, s.publishesLive = false) →
      ∀ out, run cd r1 steps = some out →
        (out.1.dest.SlowNow = false → CleanSinceTick cd r1 steps) ∧
        (out.1.dest.SlowNow = false → out.1.dest.SlowLastLoop = false →
          CleanWindow cd r1 steps) := by
  intro steps
  induction steps using List.reverseRecOn with
  | nil =>
    intro _ out hrun
    simp only [run, Option.some.injEq] at hrun
    subst hrun
    constructor
    · intro h
      rw [hslow] at h
      cases h
    · intro h
      rw [hslow] at h
      cases h
  | append_singleton steps s ih =>
    intro hlive out hrun
    obtain ⟨rm, em, eo, hrm, hstep, _⟩ := run_snoc cd r1 steps s out hrun
    have hlive1 : ∀ t ∈ steps, t.publishesLive = false :=
      fun t ht => hlive t (List.mem_append.2 (Or.inl ht))
    have hlives : s.publishesLive = false :=
      hlive s (List.mem_append.2 (Or.inr (List.mem_singleton_self s)))
    obtain ⟨ih1, ih2⟩ := ih hlive1 (rm, em) hrm
    obtain ⟨hdrop, hkeep, htick⟩ := step_flags cd rm s (out.1, eo) hstep
    by_cases hs : s = Step.iter Event.tick
    · obtain ⟨hnow, hlast⟩ := htick hs
      subst hs
      constructor
      · intro _
        exact ⟨steps, [], out.1, out.2, out.1, [], rfl, by simp, hrun, rfl, by simp⟩
      · intro _ hl
        have hm : rm.dest.SlowNow = false := by
          have := hlast
          simp only [] at this
          rw [← this]
          exact hl
        obtain ⟨pre, mid, ra, ea, rb, eb, hsplit, hmid, hpre, hrunmid, hclean⟩ := ih1 hm
        refine ⟨pre, mid, [], ra, ea, rb, eb, ?_, hmid, hpre, hrunmid, hclean⟩
        rw [hsplit]
        simp
    · by_cases hd : ∃ x ∈ eo, x.isSlowConnDrop = true
      · have hnow := hdrop hd
        simp only [] at hnow
        constructor
        · intro h
          rw [hnow] at h
          cases h
        · intro h
          rw [hnow] at h
          cases h
      · have hno : ∀ x ∈ eo, x.isSlowConnDrop = false := by
          intro x hx
          cases hx2 : x.isSlowConnDrop with
          | false => rfl
          | true => exact absurd ⟨x, hx, hx2⟩ hd
        obtain ⟨hnow, hlast⟩ := hkeep hs hlives hno
        simp only [] at hnow hlast
        constructor
        · intro h
          obtain ⟨pre, mid, ra, ea, rb, eb, hsplit, hmid, hpre, hrunmid, hclean⟩ :=
            ih1 (by rw [← hnow]; exact h)
          -- the run of `mid` ends in the state the last step starts from
          have hrb : rb = rm := by
            have h2 := run_append cd (pre ++ [Step.iter Event.tick]) mid r1
            rw [hpre] at h2
            simp only [hrunmid] at h2
            have h3 : pre ++ [Step.iter Event.tick] ++ mid = steps := by
              rw [hsplit]
              simp
            rw [h3, hrm] at h2
            simp only [Option.some.injEq, Prod.mk.injEq] at h2
            exact h2.1.symm
          subst hrb
          have hrun2 : run cd ra (mid ++ [s]) = some (out.1, eb ++ eo) := by
            rw [run_append, hrunmid]
            simp only [run_single, hstep]
          refine ⟨pre, mid ++ [s], ra, ea, out.1, eb ++ eo, ?_, ?_, hpre, hrun2, ?_⟩
          · rw [hsplit]
            simp
          · intro t ht
            rcases List.mem_append.1 ht with ht | ht
            · exact hmid t ht
            · simp only [List.mem_singleton] at ht
              subst ht
              exact hs
          · intro x hx
            rcases List.mem_append.1 hx with hx | hx
            · exact hclean x hx
            · exact hno x hx
        · intro h hl
          obtain ⟨pre, mid, post, ra, ea, rb, eb, hsplit, hmid, hpre, hrunmid, hclean⟩ :=
            ih2 (by rw [← hnow]; exact h) (by rw [← hlast]; exact hl)
          refine ⟨pre, mid, post ++ [s], ra, ea, rb, eb, ?_, hmid, hpre, hrunmid, hclean⟩
          rw [hsplit]
          simp

/-- C5 as stated fails: a record is dropped to a slow connection, the
connection dies, one tick passes, `updateConn` publishes a new connection
(which clears both flags), and the very next iteration reads a record from the
spool although no window between two ticks has gone by. -/
theorem replay_resumes_on_new_conn :
    step sampleCodec (sampleRelay sampleDest (some (sampleConn 1 true 0)))
        (Step.iter (Event.ingress [97]))
      = some (slowRelay, [Effect.offerConnIn 1 [97] false]) ∧
    (Effect.offerConnIn 1 [97] false).isSlowConnDrop = true ∧
    (run sampleCodec slowRelay (reconnectSteps ++ [Step.iter (Event.unspool [98])])).isSome
      = true ∧
    ¬ CleanWindow sampleCodec slowRelay reconnectSteps := by
  refine ⟨by decide, rfl, by decide, ?_⟩
  rintro ⟨pre, mid, post, ra, ea, rb, eb, hsplit, -⟩
  have hc : reconnectSteps.count (Step.iter Event.tick) = 1 := by decide
  rw [hsplit] at hc
  simp only [List.count_append, List.count_cons_self] at hc
  omega

/-- C5, amended: once a record has been dropped because `conn.In` would block,
no record is read from the spool output until either a full window between
two consecutive reconnect ticks has gone by without such a drop, or a live
connection has been received on `connUpdates`.  Stated on executions: if a
step drops a record to a slow connection, no later step publishes a live
connection, and after `steps` the loop reads a record from the spool, then
`steps` contains two consecutive ticks with no slow drop between them. -/
theorem replay_waits_for_clean_window (cd : Codec) (r : Relay) (s0 : Step) (r1 : Relay)
    (e1 : List Effect) (steps : List Step) (buf : Record)
    (h0 : step cd r s0 = some (r1, e1))
    (hdrop : ∃ x ∈ e1, x.isSlowConnDrop = true)
    (hlive : ∀ s ∈ steps, s.publishesLive = false)
    (hread : (run cd r1 (steps ++ [Step.iter (Event.unspool buf)])).isSome = true) :
    CleanWindow cd r1 steps := by
  have hslow : r1.dest.SlowNow = true := (step_flags cd r s0 (r1, e1) h0).1 hdrop
  obtain ⟨out, hout⟩ := Option.isSome_iff_exists.1 hread
  obtain ⟨rm, em, eo, hrm, hstep, _⟩ := run_snoc cd r1 steps _ out hout
  have hflags := step_unspool_flags cd rm buf (by rw [hstep]; rfl)
  exact (slow_window_invariant cd r1 hslow steps hlive (rm, em) hrm).2 hflags.1 hflags.2

/-- A quiet window lets replay resume: drop, tick, the connection drains,
tick, and the next iteration reads from the spool. -/
theorem replay_waits_for_clean_window_witness :
    CleanWindow sampleCodec slowRelay quietSteps :=
  replay_waits_for_clean_window sampleCodec (sampleRelay sampleDest (some (sampleConn 1 true 0)))
    (Step.iter (Event.ingress [97])) slowRelay [Effect.offerConnIn 1 [97] false] quietSteps [98]
    (by decide) ⟨_, List.mem_singleton_self _, rfl⟩ (by decide) (by decide)

/-! ## Reconnect attempts in flight -/

/-- C4 does not hold of the code: on `earlyTickSchedule` the tick handler sees
`conn == nil` and `numConnUpdates == 0` while the first `updateConn` is
already running, starts a second one, and the engine reaches a state with two
running `updateConn` goroutines and `numConnUpdates = 2`. -/
theorem two_reconnects_in_flight :
    (sysRun sampleCodec (relayStart sampleDest) [SysMove.relayEvent Event.tick]).map
        (fun s => (s.tasks.length, s.relay.numConnUpdates)) = some (2, 0) ∧
    (sysRun sampleCodec (relayStart sampleDest) earlyTickSchedule).map
        (fun s => (s.tasks.length, s.relay.numConnUpdates)) = some (2, 2) := by
  constructor <;> decide

/-! ## Arbitration in `Spool.Writer` -/

/-- C10 does not hold of the code: with a record ready on `InRT` and one ready
on `InBulk`, the single `select` of `Spool.Writer` may run the `InBulk` case;
the bulk record is then forwarded to `queueBuffer` and the RT record is still
waiting. -/
theorem writer_may_take_bulk_while_rt_ready :
    bothReadySpool.ready WriterCase.rt = true ∧
    bothReadySpool.ready WriterCase.bulk = true ∧
    (Writer bothReadySpool WriterCase.bulk).map (fun s => (s.queueBuffer, s.InRT))
      = some ([[98]], [[97]]) := by
  decide

/-! ## The sanitised address -/

theorem addrToPath_data (s : String) : (addrToPath s).data = s.data.map cleanChar := by
  unfold addrToPath replaceChar
  simp only [List.map_map]
  apply List.map_congr_left
  intro c _
  simp only [Function.comp, cleanChar]
  by_cases h1 : c = '.'
  · subst h1
    decide
  · by_cases h2 : c = ':'
    · subst h2
      decide
    · simp [h1, h2]

theorem cleanChar_utf8Size (c : Char) : (cleanChar c).utf8Size = c.utf8Size := by
  unfold cleanChar
  by_cases h : c = '.' ∨ c = ':'
  · rw [if_pos h]
    rcases h with h | h <;> subst h <;> decide
  · rw [if_neg h]

theorem utf8ByteSize_go_map (l : List Char) :
    String.utf8ByteSize.go (l.map cleanChar) = String.utf8ByteSize.go l := by
  induction l with
  | nil => rfl
  | cons c cs ih =>
    simp only [List.map_cons, String.utf8ByteSize.go, ih, cleanChar_utf8Size]

theorem cleanChar_idem (c : Char) : cleanChar (cleanChar c) = cleanChar c := by
  unfold cleanChar
  by_cases h : c = '.' ∨ c = ':'
  · simp only [if_pos h]
    decide
  · simp only [if_neg h]

theorem cleanChar_ne (c : Char) : cleanChar c ≠ '.' ∧ cleanChar c ≠ ':' := by
  unfold cleanChar
  by_cases h : c = '.' ∨ c = ':'
  · rw [if_pos h]
    decide
  · rw [if_neg h]
    exact ⟨fun h1 => h (Or.inl h1), fun h1 => h (Or.inr h1)⟩

/-- C12: for every string `s`, `addrToPath s` has the length of `s` (in
characters and in bytes), holds no `.` and no `:`, has `_` at every position
where `s` has `.` or `:` and the character of `s` at every other position;
so `addrToPath` is idempotent, and it is the identity on strings without `.`
and `:`. -/
theorem addrToPath_spec (s : String) :
    (addrToPath s).length = s.length ∧
    (addrToPath s).utf8ByteSize = s.utf8ByteSize ∧
    (∀ c ∈ (addrToPath s).data, c ≠ '.' ∧ c ≠ ':') ∧
    (∀ (i : Nat) (c : Char), s.data[i]? = some c →
      (addrToPath s).data[i]? = some (if c = '.' ∨ c = ':' then '_' else c)) ∧
    addrToPath (addrToPath s) = addrToPath s ∧
    ((∀ c ∈ s.data, c ≠ '.' ∧ c ≠ ':') → addrToPath s = s) := by
  have hd := addrToPath_data s
  refine ⟨?_, ?_, ?_, ?_, ?_, ?_⟩
  · simp only [String.length, hd, List.length_map]
  · show String.utf8ByteSize.go (addrToPath s).data = String.utf8ByteSize.go s.data
    rw [hd, utf8ByteSize_go_map]
  · intro c hc
    rw [hd] at hc
    obtain ⟨c0, _, rfl⟩ := List.mem_map.1 hc
    exact cleanChar_ne c0
  · intro i c hi
    rw [hd, List.getElem?_map, hi]
    rfl
  · apply String.ext
    rw [addrToPath_data, hd, List.map_map]
    apply List.map_congr_left
    intro c _
    exact cleanChar_idem c
  · intro h
    apply String.ext
    rw [hd]
    conv_rhs => rw [← List.map_id s.data]
    apply List.map_congr_left
    intro c hc
    have := h c hc
    simp [cleanChar, this.1, this.2]

/-- A host name without dots or colons is its own sanitised form. -/
theorem addrToPath_spec_witness : addrToPath "localhost" = "localhost" :=
  (addrToPath_spec "localhost").2.2.2.2.2 (by decide)

/-! ## The redo collector -/

theorem collectRedo_returned (n : Nat) (tasks : Int) :
    collectRedo n { pending := [], tasks := tasks, returned := true }
      = ({ pending := [], tasks := tasks, returned := true }, []) := by
  induction n with
  | zero => rfl
  | succ n ih => simp [collectRedo, collectRedoStep, ih]

theorem collectRedo_sends (tasks : Int) :
    ∀ (pending : List Record) (n : Nat),
      (collectRedo n { pending := pending, tasks := tasks, returned := false }).2
          = pending.take n ∧
      (pending.length < n →
        (collectRedo n { pending := pending, tasks := tasks, returned := false }).1
          = { pending := [], tasks := tasks - 1, returned := true }) ∧
      (n ≤ pending.length →
        (collectRedo n { pending := pending, tasks := tasks, returned := false }).1
          = { pending := pending.drop n, tasks := tasks, returned := false }) := by
  intro pending
  induction pending with
  | nil =>
    intro n
    cases n with
    | zero => simp [collectRedo]
    | succ n => simp [collectRedo, collectRedoStep, collectRedo_returned]
  | cons buf rest ih =>
    intro n
    cases n with
    | zero => simp [collectRedo]
    | succ n =>
      obtain ⟨h1, h2, h3⟩ := ih n
      simp only [collectRedo, collectRedoStep, Option.toList, List.take_succ_cons,
        List.singleton_append, List.length_cons, List.drop_succ_cons]
      refine ⟨by rw [h1], fun h => h2 (by omega), fun h => h3 (by omega)⟩

theorem Ingest_returned (n : Nat) :
    Ingest n { pending := [], returned := true } = ({ pending := [], returned := true }, []) := by
  induction n with
  | zero => rfl
  | succ n ih => simp [Ingest, IngestStep, ih]

theorem Ingest_sends :
    ∀ (pending : List Record) (n : Nat),
      (Ingest n { pending := pending, returned := false }).2 = pending.take n ∧
      (pending.length < n →
        (Ingest n { pending := pending, returned := false }).1
          = { pending := [], returned := true }) ∧
      (n ≤ pending.length →
        (Ingest n { pending := pending, returned := false }).1
          = { pending := pending.drop n, returned := false }) := by
  intro pending
  induction pending with
  | nil =>
    intro n
    cases n with
    | zero => simp [Ingest]
    | succ n => simp [Ingest, IngestStep, Ingest_returned]
  | cons buf rest ih =>
    intro n
    cases n with
    | zero => simp [Ingest]
    | succ n =>
      obtain ⟨h1, h2, h3⟩ := ih n
      simp only [Ingest, IngestStep, Option.toList, List.take_succ_cons,
        List.singleton_append, List.length_cons, List.drop_succ_cons]
      refine ⟨by rw [h1], fun h => h2 (by omega), fun h => h3 (by omega)⟩

/-- C11: `collectRedo` sends on `queueInBulk` exactly the records of
`conn.getRedo()`, each once and in order: after `n` steps the records sent are
the first `n` of the redo sequence, and once every send has completed one more
step ends the function, with nothing pending and the counter of `dest.tasks`
back at the value it had before `Add(1)`; it never sends anything after that.
With an empty redo sequence nothing is sent.  `Spool.Ingest` sends its
`bulkData` on `InBulk` in the same way. -/
theorem collectRedo_offers_redo_in_order (tasks : Int) (conn : Conn) (bulkData : List Record)
    (n : Nat) :
    (collectRedo n (collectRedoStart tasks conn)).2 = conn.redo.take n ∧
    (collectRedoStart tasks conn).tasks = tasks + 1 ∧
    (conn.redo.length < n →
      collectRedo n (collectRedoStart tasks conn)
        = ({ pending := [], tasks := tasks, returned := true }, conn.redo)) ∧
    (conn.redo = [] → (collectRedo n (collectRedoStart tasks conn)).2 = []) ∧
    (Ingest n { pending := bulkData, returned := false }).2 = bulkData.take n ∧
    (bulkData.length < n →
      Ingest n { pending := bulkData, returned := false }
        = ({ pending := [], returned := true }, bulkData)) ∧
    (bulkData = [] → (Ingest n { pending := bulkData, returned := false }).2 = []) := by
  have hstart : collectRedoStart tasks conn
      = { pending := conn.redo, tasks := tasks + 1, returned := false } := rfl
  obtain ⟨h1, h2, _⟩ := collectRedo_sends (tasks + 1) conn.redo n
  rw [← hstart] at h1 h2
  obtain ⟨g1, g2, _⟩ := Ingest_sends bulkData n
  refine ⟨h1, rfl, ?_, ?_, g1, ?_, ?_⟩
  · intro hlt
    have ht := h2 hlt
    have hs : (collectRedo n (collectRedoStart tasks conn)).2 = conn.redo := by
      rw [h1, List.take_of_length_le (by omega)]
    have hst : (collectRedo n (collectRedoStart tasks conn)).1
        = { pending := [], tasks := tasks, returned := true } := by
      rw [ht]
      simp
    exact Prod.ext hst hs
  · intro he
    rw [h1, he]
    simp
  · intro hlt
    have hs : (Ingest n { pending := bulkData, returned := false }).2 = bulkData := by
      rw [g1, List.take_of_length_le (by omega)]
    exact Prod.ext (g2 hlt) hs
  · intro he
    rw [g1, he]
    simp

/-- A connection that died with two unsent records: three steps of the
collector send both, in order, and end it with the task counter restored. -/
theorem collectRedo_offers_redo_in_order_witness :
    collectRedo 3 (collectRedoStart 0 { sampleConn 1 false 0 with redo := [[97], [98]] })
      = ({ pending := [], tasks := 0, returned := true }, [[97], [98]]) :=
  (collectRedo_offers_redo_in_order 0 { sampleConn 1 false 0 with redo := [[97], [98]] }
    [] 3).2.2.1 (by decide)

/-! ## The flush request -/

theorem flushReplies_detachDead (r : Relay) : flushReplies (detachDead r).2 = [] := by
  unfold detachDead
  cases hc : r.conn with
  | none => rfl
  | some c =>
    cases ha : c.alive
    · cases hs : r.dest.Spool <;> simp [hs, ha, flushReplies]
    · simp [ha, flushReplies]

theorem flushReplies_append (a b : List Effect) :
    flushReplies (a ++ b) = flushReplies a ++ flushReplies b := by
  induction a with
  | nil => rfl
  | cons x rest ih =>
    cases x <;> simp [flushReplies, ih]

theorem onFlush_state (r : Relay) : (onFlush r).1 = r := by
  unfold onFlush
  cases r.conn <;> rfl

theorem Flush_eq (cd : Codec) (r : Relay) (h : r.returned = false) :
    Flush cd r = some ((preamble r).1,
      match (preamble r).1.conn with
      | some c => c.flushResult
      | none => none) := by
  unfold Flush
  rw [iteration_eq cd r Event.flush h]
  simp only [handle, Option.map_some', flushReplies_append, preamble_snd,
    flushReplies_detachDead, List.nil_append]
  unfold onFlush
  cases hc : (preamble r).1.conn with
  | none => simp [flushReplies]
  | some c => simp [flushReplies]

/-- C14: in every engine state the flush handler sends exactly one reply on
`flushErr`: what `conn.Flush()` answers when `conn` is non-nil, nil when `conn`
is nil; it changes nothing of the engine state (so none of `conn`, `Online`,
`SlowNow`, `SlowLastLoop` or the counters).  `Destination.Flush` hands back
that reply, so on a running engine without connection it returns nil. -/
theorem flush_handler (cd : Codec) (r : Relay) :
    handle cd r Event.flush = some (onFlush r) ∧
    (onFlush r).1 = r ∧
    (∀ c, r.conn = some c →
      (onFlush r).2 = [Effect.connFlush c.id, Effect.flushErr c.flushResult] ∧
      flushReplies (onFlush r).2 = [c.flushResult]) ∧
    (r.conn = none →
      (onFlush r).2 = [Effect.flushErr none] ∧ flushReplies (onFlush r).2 = [none]) ∧
    (r.returned = false → ∀ c, (preamble r).1.conn = some c →
      Flush cd r = some ((preamble r).1, c.flushResult)) ∧
    (r.returned = false → (preamble r).1.conn = none →
      Flush cd r = some ((preamble r).1, none)) ∧
    (r.returned = false → r.conn = none → (Flush cd r).map Prod.snd = some none) := by
  refine ⟨rfl, onFlush_state r, ?_, ?_, ?_, ?_, ?_⟩
  · intro c hc
    simp [onFlush, hc, flushReplies]
  · intro hc
    simp [onFlush, hc, flushReplies]
  · intro hr c hc
    rw [Flush_eq cd r hr, hc]
  · intro hr hc
    rw [Flush_eq cd r hr, hc]
  · intro hr hc
    have hpre : (preamble r).1.conn = none := by
      rw [preamble_fst, setToUnspool_conn]
      rcases detachDead_conn r with h | h
      · exact h
      · rw [h, hc]
    rw [Flush_eq cd r hr, hpre]
    rfl

/-- Flushing an engine that has no connection answers nil. -/
theorem flush_handler_witness :
    (Flush sampleCodec (sampleRelay sampleDest none)).map Prod.snd = some none :=
  (flush_handler sampleCodec (sampleRelay sampleDest none)).2.2.2.2.2.2 rfl rfl

/-! ## The `Online` field -/

/-- C15 does not hold of the code: a connection is published (`Online` becomes
true), the connection dies, and at the next iteration the loop drops it; from
then on `conn` is nil when the `select` is entered while `Online` is still
true, because only the `connUpdates` branch ever writes `Online`. -/
theorem online_stays_true_after_detach :
    (run sampleCodec (sampleRelay sampleDest none) connDiesSteps).map
        (fun out => (out.1.conn, out.1.dest.Online)) = some (none, true) ∧
    (run sampleCodec (sampleRelay sampleDest none) connDiesSteps).map
        (fun out => ((preamble out.1).1.conn, (preamble out.1).1.dest.Online))
      = some (none, true) := by
  constructor <;> decide

/-! ## Accounting over whole executions -/

theorem onIngress_counts (cd : Codec) (r : Relay) (buf : Record) :
    ∃ i : Fin 6, ∀ j : Fin 6,
      counter (onIngress cd r buf).1.dest j = counter r.dest j + if j = i then 1 else 0 := by
  unfold onIngress
  cases hc : r.conn with
  | some c =>
    obtain ⟨i, hi⟩ := nonBlockingSend_counts cd r.dest c buf
    exact ⟨i, fun j => by simpa using hi j⟩
  | none =>
    by_cases hs : r.dest.Spool = true
    · obtain ⟨i, hi⟩ := nonBlockingSpool_counts r.dest buf
      exact ⟨i, fun j => by simpa [hs] using hi j⟩
    · refine ⟨4, fun j => ?_⟩
      simp only [hs]
      exact counter_numDropNoConnNoSpool r.dest j

theorem counterSum_succ (d d1 : Destination)
    (h : ∃ i : Fin 6, ∀ j : Fin 6, counter d1 j = counter d j + if j = i then 1 else 0) :
    counterSum d1 = counterSum d + 1 := by
  obtain ⟨i, hi⟩ := h
  have h0 := hi 0
  have h1 := hi 1
  have h2 := hi 2
  have h3 := hi 3
  have h4 := hi 4
  have h5 := hi 5
  simp only [counter] at h0 h1 h2 h3 h4 h5
  unfold counterSum
  rw [h0, h1, h2, h3, h4, h5]
  fin_cases i <;> simp <;> ring

theorem counterSum_same (d d1 : Destination) (h : ∀ j : Fin 6, counter d1 j = counter d j) :
    counterSum d1 = counterSum d := by
  have h0 := h 0
  have h1 := h 1
  have h2 := h 2
  have h3 := h 3
  have h4 := h 4
  have h5 := h 5
  simp only [counter] at h0 h1 h2 h3 h4 h5
  unfold counterSum
  rw [h0, h1, h2, h3, h4, h5]

/-- What one `select` branch does to the six counters. -/
theorem handle_counts (cd : Codec) (r : Relay) (e : Event) (out : Relay × List Effect)
    (hh : handle cd r e = some out) :
    ((Step.iter e).isRecord = true →
      ∃ i : Fin 6, ∀ j : Fin 6,
        counter out.1.dest j = counter r.dest j + if j = i then 1 else 0) ∧
    ((Step.iter e).isRecord = false → ∀ j : Fin 6, counter out.1.dest j = counter r.dest j) := by
  cases e with
  | inConnUpdate b =>
    simp only [handle, Option.some.injEq] at hh
    subst hh
    refine ⟨fun h => (by cases h), fun _ j => ?_⟩
    cases b <;> rfl
  | connUpdates c1 =>
    simp only [handle, Option.some.injEq] at hh
    subst hh
    refine ⟨fun h => (by cases h), fun _ j => ?_⟩
    cases c1 <;> fin_cases j <;> rfl
  | tick =>
    simp only [handle, Option.some.injEq] at hh
    subst hh
    refine ⟨fun h => (by cases h), fun _ j => ?_⟩
    fin_cases j <;> rfl
  | flush =>
    simp only [handle, Option.some.injEq] at hh
    subst hh
    refine ⟨fun h => (by cases h), fun _ j => ?_⟩
    rw [onFlush_state]
  | shutdown =>
    simp only [handle, Option.some.injEq] at hh
    subst hh
    refine ⟨fun h => (by cases h), fun _ j => ?_⟩
    unfold onShutdown
    cases r.conn <;> rfl
  | unspool buf =>
    simp only [handle, onUnspool] at hh
    cases ht : r.toUnspool with
    | false => simp [ht] at hh
    | true =>
      cases hc : r.conn with
      | none => simp [ht, hc] at hh
      | some c =>
        simp only [ht, hc, if_true, Option.some.injEq] at hh
        subst hh
        exact ⟨fun _ => nonBlockingSend_counts cd r.dest c buf, fun h => by cases h⟩
  | ingress buf =>
    simp only [handle, Option.some.injEq] at hh
    subst hh
    exact ⟨fun _ => onIngress_counts cd r buf, fun h => by cases h⟩

/-- What one step of an execution does to the six counters. -/
theorem step_counts (cd : Codec) (r : Relay) (s : Step) (out : Relay × List Effect)
    (hs : step cd r s = some out) :
    (s.isRecord = true →
      ∃ i : Fin 6, ∀ j : Fin 6,
        counter out.1.dest j = counter r.dest j + if j = i then 1 else 0) ∧
    (s.isRecord = false → ∀ j : Fin 6, counter out.1.dest j = counter r.dest j) := by
  cases s with
  | env m =>
    simp only [step, Option.some.injEq] at hs
    subst hs
    refine ⟨fun h => (by cases h), fun _ j => ?_⟩
    cases m with
    | connState alive inFree flushResult redo =>
      unfold applyEnv
      cases r.conn <;> rfl
    | queueInRT free => fin_cases j <;> rfl
  | iter e =>
    simp only [step] at hs
    cases hr : r.returned with
    | true =>
      rw [iteration_returned cd r e hr] at hs
      cases hs
    | false =>
      rw [iteration_eq cd r e hr] at hs
      cases hh : handle cd (preamble r).1 e with
      | none =>
        rw [hh] at hs
        cases hs
      | some o =>
        rw [hh] at hs
        simp only [Option.map_some', Option.some.injEq] at hs
        subst hs
        have h := handle_counts cd (preamble r).1 e o hh
        rw [preamble_dest] at h
        exact h

theorem run_counts (cd : Codec) :
    ∀ (steps : List Step) (r : Relay) (out : Relay × List Effect),
      run cd r steps = some out →
      counterSum out.1.dest = counterSum r.dest + (steps.countP Step.isRecord : Nat) := by
  intro steps
  induction steps with
  | nil =>
    intro r out hrun
    simp only [run, Option.some.injEq] at hrun
    subst hrun
    simp
  | cons s rest ih =>
    intro r out hrun
    unfold run at hrun
    cases hs : step cd r s with
    | none =>
      rw [hs] at hrun
      cases hrun
    | some o1 =>
      rw [hs] at hrun
      cases hr : run cd o1.1 rest with
      | none =>
        simp only [hr] at hrun
        cases hrun
      | some o2 =>
        simp only [hr, Option.some.injEq] at hrun
        subst hrun
        have h2 := ih o1.1 o2 hr
        obtain ⟨hrec, hother⟩ := step_counts cd r s o1 hs
        simp only [h2]
        cases hb : s.isRecord with
        | true =>
          rw [counterSum_succ r.dest o1.1.dest (hrec hb), List.countP_cons_of_pos _ _ hb]
          push_cast
          ring
        | false =>
          rw [counterSum_same r.dest o1.1.dest (hother hb),
            List.countP_cons_of_neg _ _ (by simp [hb])]

/-- C17: in every execution of the relay loop that starts with the six counters
at zero, the sum `numBuffered + numSpool + numDropSlowConn + numDropSlowSpool +
numDropNoConnNoSpool + numDropBadPickle` at the end equals the number of
iterations that took a record from `dest.in` or from the spool output (so a
record that is spooled and later replayed is counted twice); every such
iteration adds one to exactly one counter, and every other step (tick,
connection update, in-flight toggle, flush, shutdown, a move of another
goroutine) leaves all six as they were. -/
theorem counters_account_for_records (cd : Codec) (r : Relay) :
    ((∀ j : Fin 6, counter r.dest j = 0) → ∀ steps out, run cd r steps = some out →
      counterSum out.1.dest = (steps.countP Step.isRecord : Nat)) ∧
    (∀ steps out, run cd r steps = some out →
      counterSum out.1.dest = counterSum r.dest + (steps.countP Step.isRecord : Nat)) ∧
    (∀ s out, step cd r s = some out → s.isRecord = true →
      ∃ i : Fin 6, ∀ j : Fin 6,
        counter out.1.dest j = counter r.dest j + if j = i then 1 else 0) ∧
    (∀ s out, step cd r s = some out → s.isRecord = false →
      ∀ j : Fin 6, counter out.1.dest j = counter r.dest j) := by
  refine ⟨?_, fun steps out h => run_counts cd steps r out h,
    fun s out h => (step_counts cd r s out h).1, fun s out h => (step_counts cd r s out h).2⟩
  intro hzero steps out hrun
  have h := run_counts cd steps r out hrun
  have hz : counterSum r.dest = 0 := by
    have h0 := hzero 0
    have h1 := hzero 1
    have h2 := hzero 2
    have h3 := hzero 3
    have h4 := hzero 4
    have h5 := hzero 5
    simp only [counter] at h0 h1 h2 h3 h4 h5
    unfold counterSum
    rw [h0, h1, h2, h3, h4, h5]
    rfl
  rw [h, hz, zero_add]

/-- One record, spooled and then replayed, is counted twice: once in
`numSpool` and once in `numBuffered`. -/
theorem counters_account_for_records_witness :
    ∃ out, run sampleCodec (sampleRelay sampleDest none) spoolThenReplay = some out ∧
      counterSum out.1.dest = 2 ∧ out.1.dest.numSpool = 1 ∧ out.1.dest.numBuffered = 1 := by
  have hsome : (run sampleCodec (sampleRelay sampleDest none) spoolThenReplay).isSome = true := by
    decide
  obtain ⟨out, hout⟩ := Option.isSome_iff_exists.1 hsome
  have hsum := (counters_account_for_records sampleCodec (sampleRelay sampleDest none)).1
    (by decide) spoolThenReplay out hout
  have hfields : (run sampleCodec (sampleRelay sampleDest none) spoolThenReplay).map
      (fun o => (o.1.dest.numSpool, o.1.dest.numBuffered)) = some (1, 1) := by decide
  rw [hout] at hfields
  simp only [Option.map_some', Option.some.injEq, Prod.mk.injEq] at hfields
  refine ⟨out, hout, ?_, hfields.1, hfields.2⟩
  rw [hsum]
  decide

/-! ## Arbitration in `Destination.QueueWriter` -/

/-- C16: in each iteration of `QueueWriter` the non-blocking receive on
`queueInRT` comes first: when an RT record is waiting at that moment, it is
the record forwarded to `queueBuffer` in this iteration, whatever else is
ready; a record from `queueInBulk` is forwarded only in an iteration whose
non-blocking RT receive found nothing.  Whatever record is taken is removed
from its input and appended to `queueBuffer` unchanged, once. -/
theorem queueWriter_tries_rt_first (now : QueueInputs) (queueBuffer : List Record)
    (later : QueueInputs) (pick : QueueCase) :
    (∀ buf rest, now.queueInRT = buf :: rest →
      QueueWriter now queueBuffer later pick
        = some { case := QueueCase.rt1, inputs := { now with queueInRT := rest },
                 queueBuffer := queueBuffer ++ [buf] }) ∧
    (∀ w, QueueWriter now queueBuffer later pick = some w →
      (w.case = QueueCase.bulk →
        now.queueInRT = [] ∧
        ∃ buf, later.queueInBulk = some buf ∧ w.queueBuffer = queueBuffer ++ [buf] ∧
          w.inputs = { later with queueInBulk := none }) ∧
      (w.case = QueueCase.rt2 →
        now.queueInRT = [] ∧
        ∃ buf rest, later.queueInRT = buf :: rest ∧ w.queueBuffer = queueBuffer ++ [buf] ∧
          w.inputs = { later with queueInRT := rest }) ∧
      (w.case = QueueCase.rt1 →
        ∃ buf rest, now.queueInRT = buf :: rest ∧ w.queueBuffer = queueBuffer ++ [buf] ∧
          w.inputs = { now with queueInRT := rest }) ∧
      ∃ buf, w.queueBuffer = queueBuffer ++ [buf]) := by
  constructor
  · intro buf rest h
    simp [QueueWriter, h]
  · intro w hw
    unfold QueueWriter at hw
    cases hnow : now.queueInRT with
    | cons buf rest =>
      simp only [hnow, Option.some.injEq] at hw
      subst hw
      exact ⟨fun h => (by cases h), fun h => (by cases h),
        fun _ => ⟨buf, rest, rfl, rfl, rfl⟩, ⟨buf, rfl⟩⟩
    | nil =>
      simp only [hnow] at hw
      cases pick with
      | rt1 => cases hw
      | rt2 =>
        cases hl : later.queueInRT with
        | nil =>
          simp only [hl] at hw
          cases hw
        | cons buf rest =>
          simp only [hl, Option.some.injEq] at hw
          subst hw
          exact ⟨fun h => (by cases h), fun _ => ⟨rfl, buf, rest, rfl, rfl, rfl⟩,
            fun h => (by cases h), ⟨buf, rfl⟩⟩
      | bulk =>
        cases hl : later.queueInBulk with
        | none =>
          simp only [hl] at hw
          cases hw
        | some buf =>
          simp only [hl, Option.some.injEq] at hw
          subst hw
          exact ⟨fun _ => ⟨rfl, buf, rfl, rfl, rfl⟩, fun h => (by cases h),
            fun h => (by cases h), ⟨buf, rfl⟩⟩

/-- With an RT record and a bulk record both waiting, the iteration forwards
the RT record, also when the inner `select` would have picked bulk. -/
theorem queueWriter_tries_rt_first_witness :
    QueueWriter { queueInRT := [[97]], queueInBulk := some [98] } []
        { queueInRT := [[97]], queueInBulk := some [98] } QueueCase.bulk
      = some { case := QueueCase.rt1, inputs := { queueInRT := [], queueInBulk := some [98] },
               queueBuffer := [[97]] } :=
  (queueWriter_tries_rt_first { queueInRT := [[97]], queueInBulk := some [98] } []
    { queueInRT := [[97]], queueInBulk := some [98] } QueueCase.bulk).1 [97] [] rfl

/-! ## The clean address follows the address -/

theorem expandKey_counter (env : MetricsEnv) (key : String) (h : env.instanceName ≠ "") :
    expandKey env ("target_type=counter." ++ key) = some (registryKey env key) := by
  unfold expandKey registryKey
  rw [if_neg h]
  have hjoin : "service=" ++ env.service ++ ".instance=" ++ env.instanceName ++ "."
        ++ ("target_type=counter." ++ key)
      = "service=" ++ env.service ++ ".instance=" ++ env.instanceName
        ++ ".target_type=counter." ++ key := by
    have hlit : ("." : String) ++ "target_type=counter." = ".target_type=counter." := by decide
    rw [← hlit]
    simp only [String.append_assoc]
  rw [hjoin]

theorem Counter_some (env : MetricsEnv) (key : String) (h : env.instanceName ≠ "") :
    Counter env key = some (env.registry (registryKey env key)) := by
  unfold Counter
  rw [expandKey_counter env key h]

theorem Counter_none (env : MetricsEnv) (key : String) (h : env.instanceName = "") :
    Counter env key = none := by
  unfold Counter expandKey
  rw [if_pos h]

theorem setMetrics_none (env : MetricsEnv) (d : Destination) (h : env.instanceName = "") :
    setMetrics env d = none := by
  unfold setMetrics
  simp only [Counter_none env _ h]

/-- What `setMetrics` leaves behind: the counters of the clean address the
destination has at that moment, everything else as it was. -/
theorem setMetrics_some (env : MetricsEnv) (d d1 : Destination) (h : setMetrics env d = some d1) :
    env.instanceName ≠ "" ∧ d1.Addr = d.Addr ∧ d1.cleanAddr = d.cleanAddr ∧
      CountersUnder env d.cleanAddr d1 ∧ SameSettings d1 d := by
  by_cases hi : env.instanceName = ""
  · rw [setMetrics_none env d hi] at h
    cases h
  · unfold setMetrics at h
    simp only [Counter_some env _ hi, Option.some.injEq] at h
    subst h
    exact ⟨hi, rfl, rfl, ⟨rfl, rfl, rfl, rfl, rfl, rfl⟩, ⟨rfl, rfl, rfl, rfl, rfl, rfl⟩⟩

theorem setMetrics_isSome (env : MetricsEnv) (d : Destination) (h : env.instanceName ≠ "") :
    ∃ d1, setMetrics env d = some d1 := by
  unfold setMetrics
  simp only [Counter_some env _ h]
  exact ⟨_, rfl⟩

theorem afterNewConn_ne (env : MetricsEnv) (d : Destination) (addr : String)
    (h : addr ≠ d.Addr) :
    afterNewConn env d addr
      = setMetrics env { d with Addr := addr, cleanAddr := addrToPath addr } := by
  unfold afterNewConn
  rw [if_pos h]

theorem afterNewConn_eq (env : MetricsEnv) (d : Destination) (addr : String)
    (h : addr = d.Addr) : afterNewConn env d addr = some d := by
  unfold afterNewConn
  rw [if_neg (fun hne => hne h)]

/-- C13: the destination `NewDestination` returns has `Addr = addr`,
`cleanAddr = addrToPath(Addr)` and its counters bound to the registry entries
of that clean address, and `updateConn` keeps `cleanAddr = addrToPath(Addr)`.
When `NewConn` succeeds with `addr` different from `Addr`, then before the
connection is published (the task is about to send it on `connUpdates`, `conn`
of the loop untouched) `Addr` is `addr`, `cleanAddr` is `addrToPath(addr)` and
the counters are the registry entries under the keys of the new clean address
(not the old one), the other settings being as they were; with `addr` equal to
`Addr` the destination is unchanged.  Unless `instance` is empty (then
`setMetrics` panics) this part of `updateConn` always goes through.  When
`NewConn` fails the destination is unchanged and the task goes straight to its
final `inConnUpdate <- false`, after which it is gone without having handed
the loop a connection. -/
theorem cleanAddr_follows_Addr (env : MetricsEnv) (cd : Codec) :
    (∀ matcher addr spool pickle d,
      NewDestination env matcher addr spool pickle = Outcome.ok d →
      d.Addr = addr ∧ d.cleanAddr = addrToPath d.Addr ∧
        CountersUnder env (addrToPath addr) d) ∧
    (∀ d addr d1, afterNewConn env d addr = some d1 → d.cleanAddr = addrToPath d.Addr →
      d1.cleanAddr = addrToPath d1.Addr) ∧
    (∀ d addr d1, addr ≠ d.Addr → afterNewConn env d addr = some d1 →
      d1.Addr = addr ∧ d1.cleanAddr = addrToPath addr ∧
      CountersUnder env (addrToPath addr) d1 ∧ SameSettings d1 d) ∧
    (∀ d addr, addr = d.Addr → afterNewConn env d addr = some d) ∧
    (∀ d addr, env.instanceName ≠ "" → ∃ d1, afterNewConn env d addr = some d1) ∧
    (∀ (s : Sys) (i : Nat) (t : Task) (c : Conn) (d1 : Destination),
      s.tasks.get? i = some t → t.pc = TaskPc.newConn →
      afterNewConn env s.relay.dest t.addr = some d1 →
      sysStep cd s (SysMove.taskStep i (some c) env)
        = some { relay := { s.relay with dest := d1 },
                 tasks := s.tasks.set i { t with pc := TaskPc.sendConn c } }) ∧
    (∀ (s : Sys) (i : Nat) (t : Task),
      s.tasks.get? i = some t → t.pc = TaskPc.newConn →
      sysStep cd s (SysMove.taskStep i none env)
        = some { s with tasks := s.tasks.set i { t with pc := TaskPc.sendEnd } }) ∧
    (∀ (s s1 : Sys) (i : Nat) (t : Task) (nc : Option Conn),
      s.tasks.get? i = some t → t.pc = TaskPc.sendEnd →
      sysStep cd s (SysMove.taskStep i nc env) = some s1 →
      s1.relay.conn = (detachDead s.relay).1.conn ∧ s1.relay.dest = s.relay.dest ∧
        s1.tasks = s.tasks.eraseIdx i) := by
  refine ⟨?_, ?_, ?_, afterNewConn_eq env, ?_, ?_, ?_, ?_⟩
  · intro matcher addr spool pickle d h
    unfold NewDestination at h
    cases matcher with
    | error e => cases h
    | ok u =>
      simp only [] at h
      split at h
      · cases h
      · rename_i bound hb
        simp only [Outcome.ok.injEq] at h
        subst h
        obtain ⟨_, h1, h2, h3, _⟩ := setMetrics_some env _ bound hb
        refine ⟨h1, ?_, h3⟩
        rw [h2, h1]
  · intro d addr d1 h hinv
    by_cases ha : addr = d.Addr
    · rw [afterNewConn_eq env d addr ha] at h
      simp only [Option.some.injEq] at h
      subst h
      exact hinv
    · rw [afterNewConn_ne env d addr ha] at h
      obtain ⟨_, h1, h2, _, _⟩ := setMetrics_some env _ d1 h
      rw [h2, h1]
  · intro d addr d1 ha h
    rw [afterNewConn_ne env d addr ha] at h
    obtain ⟨_, h1, h2, h3, h4⟩ := setMetrics_some env _ d1 h
    exact ⟨h1, h2, h3, h4⟩
  · intro d addr hi
    by_cases ha : addr = d.Addr
    · exact ⟨d, afterNewConn_eq env d addr ha⟩
    · rw [afterNewConn_ne env d addr ha]
      exact setMetrics_isSome env _ hi
  · intro s i t c d1 hget hpc hd
    simp only [sysStep, hget, hpc, hd]
  · intro s i t hget hpc
    simp only [sysStep, hget, hpc]
  · intro s s1 i t nc hget hpc hstep
    simp only [sysStep, hget, hpc] at hstep
    cases hit : iteration cd s.relay (Event.inConnUpdate false) with
    | none =>
      rw [hit] at hstep
      cases hstep
    | some o =>
      rw [hit] at hstep
      simp only [Option.some.injEq] at hstep
      subst hstep
      cases hr : s.relay.returned with
      | true =>
        rw [iteration_returned cd s.relay _ hr] at hit
        cases hit
      | false =>
        rw [iteration_eq cd s.relay _ hr] at hit
        simp only [handle, Option.map_some', Option.some.injEq] at hit
        subst hit
        have heff : spawnedTasks ((preamble s.relay).2
            ++ (onInConnUpdate (preamble s.relay).1 false).2) = [] := by
          rw [preamble_snd]
          unfold detachDead onInConnUpdate
          cases hc : s.relay.conn with
          | none => rfl
          | some c =>
            cases ha : c.alive
            · cases hs : s.relay.dest.Spool <;> simp [ha, hs, spawnedTasks]
            · simp [ha, spawnedTasks]
        refine ⟨?_, ?_, ?_⟩
        · show (preamble s.relay).1.conn = _
          rw [preamble_fst, setToUnspool_conn]
        · show (preamble s.relay).1.dest = _
          rw [preamble_dest]
        · simp only [heff, List.append_nil]

/-- A new destination for `10.0.0.1:2003` is labelled `10_0_0_1_2003` and gets
the spool counter registered under that label (5); a reconnect of
`localhost:2003` to `10.0.0.2:2003` relabels it `10_0_0_2_2003` and binds the
spool counter registered under the new label (7), not the one it had (3). -/
theorem cleanAddr_follows_Addr_witness :
    (∃ d, NewDestination talliedEnv (Except.ok ()) "10.0.0.1:2003" true false = Outcome.ok d ∧
      d.cleanAddr = "10_0_0_1_2003" ∧ d.numSpool = 5) ∧
    (∃ d1, afterNewConn talliedEnv { sampleDest with numSpool := 3 } "10.0.0.2:2003" = some d1 ∧
      d1.Addr = "10.0.0.2:2003" ∧ d1.cleanAddr = "10_0_0_2_2003" ∧ d1.numSpool = 7) := by
  constructor
  · have hnew : ∃ d, NewDestination talliedEnv (Except.ok ()) "10.0.0.1:2003" true false
        = Outcome.ok d := ⟨_, rfl⟩
    obtain ⟨d, hd⟩ := hnew
    obtain ⟨h1, h2, h3⟩ := (cleanAddr_follows_Addr talliedEnv sampleCodec).1 _ _ _ _ d hd
    refine ⟨d, hd, ?_, ?_⟩
    · rw [h2, h1]
      decide
    · rw [h3.2.1]
      decide
  · obtain ⟨d1, hd1⟩ := (cleanAddr_follows_Addr talliedEnv sampleCodec).2.2.2.2.1
      { sampleDest with numSpool := 3 } "10.0.0.2:2003" (by decide)
    obtain ⟨h1, h2, h3, _⟩ := (cleanAddr_follows_Addr talliedEnv sampleCodec).2.2.1
      { sampleDest with numSpool := 3 } "10.0.0.2:2003" d1 (by decide) hd1
    refine ⟨d1, hd1, h1, ?_, ?_⟩
    · rw [h2]
      decide
    · rw [h3.2.1]
      decide

/-! ## The errors of `NewRouteGrafanaNet` -/

theorem scanSchemas_empty_retention :
    ∀ (schemas : List Schema) (defaultFound : Bool),
      (∃ s ∈ schemas, s.Retentions = []) →
      scanSchemas schemas defaultFound = Except.error "retention setting cannot be empty" := by
  intro schemas
  induction schemas with
  | nil =>
    rintro _ ⟨s, hs, _⟩
    cases hs
  | cons schema rest ih =>
    intro defaultFound h
    unfold scanSchemas
    by_cases he : schema.Retentions = []
    · simp [he]
    · have hlen : ¬ schema.Retentions.length = 0 := by
        simpa [List.length_eq_zero] using he
      simp only [hlen, if_false]
      apply ih
      obtain ⟨s, hs, hr⟩ := h
      rcases List.mem_cons.1 hs with h1 | h1
      · subst h1
        exact absurd hr he
      · exact ⟨s, h1, hr⟩

theorem scanSchemas_full_retentions :
    ∀ (schemas : List Schema) (defaultFound : Bool),
      (∀ s ∈ schemas, s.Retentions ≠ []) →
      ∃ found, scanSchemas schemas defaultFound = Except.ok found ∧
        (found = true ↔ (defaultFound = true ∨ ∃ s ∈ schemas, s.Pattern = ".*")) := by
  intro schemas
  induction schemas with
  | nil =>
    intro defaultFound _
    exact ⟨defaultFound, rfl, by simp⟩
  | cons schema rest ih =>
    intro defaultFound h
    unfold scanSchemas
    have hlen : ¬ schema.Retentions.length = 0 := by
      simpa [List.length_eq_zero] using h schema (List.mem_cons_self _ _)
    simp only [hlen, if_false]
    obtain ⟨found, hf, hiff⟩ := ih (if schema.Pattern = ".*" then true else defaultFound)
      (fun s hs => h s (List.mem_cons_of_mem _ hs))
    refine ⟨found, hf, ?_⟩
    rw [hiff]
    by_cases hp : schema.Pattern = ".*"
    · simp [hp]
    · simp [hp]

/-- C18: when the matcher and the schemas file load without error,
`NewRouteGrafanaNet` returns an error if and only if some schema has no
retentions or no schema has the pattern `.*`.  The error is "retention setting
cannot be empty" whenever some schema has an empty retention list (also with
a `.*` schema present), and it is "storage-conf does not have a default '.*'
pattern" exactly when every schema has a retention and none has the pattern
`.*`; so an empty schema list is rejected. -/
theorem NewRouteGrafanaNet_errors (env : MetricsEnv) (maxChan : Int) (schemas : List Schema)
    (key addr apiKey : String) (sslVerify : Bool)
    (bufSize flushMaxNum flushMaxWait timeout : Int) (res : Outcome RouteGrafanaNet)
    (hres : res = NewRouteGrafanaNet env maxChan (Except.ok ()) (Except.ok schemas) key addr
      apiKey sslVerify bufSize flushMaxNum flushMaxWait timeout) :
    ((∃ msg, res = Outcome.error msg) ↔
      ((∃ s ∈ schemas, s.Retentions = []) ∨ ∀ s ∈ schemas, s.Pattern ≠ ".*")) ∧
    ((∃ s ∈ schemas, s.Retentions = []) →
      res = Outcome.error "retention setting cannot be empty") ∧
    (res = Outcome.error "storage-conf does not have a default '.*' pattern" ↔
      ((∀ s ∈ schemas, s.Retentions ≠ []) ∧ ∀ s ∈ schemas, s.Pattern ≠ ".*")) ∧
    (schemas = [] →
      res = Outcome.error "storage-conf does not have a default '.*' pattern") := by
  have hmsg : ("retention setting cannot be empty" : String)
      ≠ "storage-conf does not have a default '.*' pattern" := by decide
  -- the two ways the scan can end
  have hbad : (∃ s ∈ schemas, s.Retentions = []) →
      res = Outcome.error "retention setting cannot be empty" := by
    intro h
    rw [hres]
    simp only [NewRouteGrafanaNet, scanSchemas_empty_retention schemas false h]
  have hgood : (∀ s ∈ schemas, s.Retentions ≠ []) →
      ((∀ s ∈ schemas, s.Pattern ≠ ".*") →
        res = Outcome.error "storage-conf does not have a default '.*' pattern") ∧
      ((∃ s ∈ schemas, s.Pattern = ".*") → ∀ msg, res ≠ Outcome.error msg) := by
    intro h
    obtain ⟨found, hf, hiff⟩ := scanSchemas_full_retentions schemas false h
    constructor
    · intro hnone
      have hfalse : found = false := by
        cases hfd : found with
        | false => rfl
        | true =>
          obtain ⟨s, hs, hp⟩ := (hiff.1 hfd).resolve_left (by simp)
          exact absurd hp (hnone s hs)
      rw [hres]
      simp only [NewRouteGrafanaNet, hf, hfalse]
      rfl
    · intro hsome msg
      have htrue : found = true := hiff.2 (Or.inr hsome)
      rw [hres]
      simp only [NewRouteGrafanaNet, hf, htrue]
      by_cases hb : bufSize < 0 ∨ maxChan < bufSize
      · simp [hb]
      · by_cases hi : env.instanceName = ""
        · simp [hb, hi]
        · simp [hb, hi]
  by_cases hempty : ∃ s ∈ schemas, s.Retentions = []
  · have hr := hbad hempty
    refine ⟨?_, hbad, ?_, ?_⟩
    · exact ⟨fun _ => Or.inl hempty, fun _ => ⟨_, hr⟩⟩
    · constructor
      · intro h
        rw [hr] at h
        simp only [Outcome.error.injEq] at h
        exact absurd h hmsg
      · rintro ⟨hall, _⟩
        obtain ⟨s, hs, he⟩ := hempty
        exact absurd he (hall s hs)
    · intro hnil
      obtain ⟨s, hs, _⟩ := hempty
      rw [hnil] at hs
      cases hs
  · have hall : ∀ s ∈ schemas, s.Retentions ≠ [] :=
      fun s hs he => hempty ⟨s, hs, he⟩
    obtain ⟨h1, h2⟩ := hgood hall
    by_cases hdef : ∃ s ∈ schemas, s.Pattern = ".*"
    · have hno : ¬ ∀ s ∈ schemas, s.Pattern ≠ ".*" := by
        obtain ⟨s, hs, hp⟩ := hdef
        exact fun h => h s hs hp
      refine ⟨?_, hbad, ?_, ?_⟩
      · constructor
        · rintro ⟨msg, hm⟩
          exact absurd hm (h2 hdef msg)
        · rintro (h | h)
          · exact absurd h hempty
          · exact absurd h hno
      · constructor
        · intro h
          exact absurd h (h2 hdef _)
        · rintro ⟨_, h⟩
          exact absurd h hno
      · intro hnil
        obtain ⟨s, hs, _⟩ := hdef
        rw [hnil] at hs
        cases hs
    · have hnone : ∀ s ∈ schemas, s.Pattern ≠ ".*" := fun s hs hp => hdef ⟨s, hs, hp⟩
      have hr := h1 hnone
      exact ⟨⟨fun _ => Or.inr hnone, fun _ => ⟨_, hr⟩⟩, hbad, ⟨fun _ => ⟨hall, hnone⟩, fun _ => hr⟩,
        fun _ => hr⟩

/-- A schema with an empty retention list is reported as such even though a
`.*` schema comes first. -/
theorem NewRouteGrafanaNet_errors_witness :
    NewRouteGrafanaNet sampleEnv 1000000 (Except.ok ()) (Except.ok brokenSchemas) "route"
        "host:2003" "secret" true 100 10 1000 5000
      = Outcome.error "retention setting cannot be empty" :=
  (NewRouteGrafanaNet_errors sampleEnv 1000000 brokenSchemas "route" "host:2003" "secret" true
    100 10 1000 5000 _ rfl).2.1 ⟨_, List.mem_cons_of_mem _ (List.mem_cons_self _ _), rfl⟩

/-! ## Parsing a metric line -/

theorem fieldsFrom_cons (c : Char) (cs cur : List Char) :
    fieldsFrom (c :: cs) cur =
      if isSpace c then closeField cur ++ fieldsFrom cs [] else fieldsFrom cs (cur ++ [c]) := rfl

theorem fieldsFrom_spaces :
    ∀ (w l cur : List Char), (∀ c ∈ w, isSpace c = true) → w ≠ [] →
      fieldsFrom (w ++ l) cur = closeField cur ++ fieldsFrom l [] := by
  intro w
  induction w with
  | nil => intro _ _ _ h; exact absurd rfl h
  | cons c w ih =>
    intro l cur hw _
    have hc : isSpace c = true := hw c (List.mem_cons_self _ _)
    rw [List.cons_append, fieldsFrom_cons, if_pos hc]
    by_cases hnil : w = []
    · subst hnil
      rfl
    · rw [ih l [] (fun x hx => hw x (List.mem_cons_of_mem _ hx)) hnil]
      rfl

theorem fieldsFrom_leading (w l : List Char) (hw : ∀ c ∈ w, isSpace c = true) :
    fieldsFrom (w ++ l) [] = fieldsFrom l [] := by
  by_cases hnil : w = []
  · subst hnil
    rfl
  · rw [fieldsFrom_spaces w l [] hw hnil]
    rfl

theorem fieldsFrom_congr :
    ∀ (l r1 r2 cur : List Char), (∀ c, fieldsFrom r1 c = fieldsFrom r2 c) →
      fieldsFrom (l ++ r1) cur = fieldsFrom (l ++ r2) cur := by
  intro l
  induction l with
  | nil => intro r1 r2 cur h; exact h cur
  | cons c l ih =>
    intro r1 r2 cur h
    rw [List.cons_append, List.cons_append, fieldsFrom_cons, fieldsFrom_cons,
      ih r1 r2 [] h, ih r1 r2 (cur ++ [c]) h]

theorem fieldsFrom_between (l1 w1 w2 l2 cur : List Char)
    (h1 : ∀ c ∈ w1, isSpace c = true) (h2 : ∀ c ∈ w2, isSpace c = true)
    (n1 : w1 ≠ []) (n2 : w2 ≠ []) :
    fieldsFrom (l1 ++ (w1 ++ l2)) cur = fieldsFrom (l1 ++ (w2 ++ l2)) cur := by
  apply fieldsFrom_congr
  intro c
  rw [fieldsFrom_spaces w1 l2 c h1 n1, fieldsFrom_spaces w2 l2 c h2 n2]

theorem fieldsFrom_trailing (l w cur : List Char) (hw : ∀ c ∈ w, isSpace c = true) :
    fieldsFrom (l ++ w) cur = fieldsFrom l cur := by
  have h := fieldsFrom_congr l w [] cur (by
    intro c
    by_cases hnil : w = []
    · subst hnil
      rfl
    · have := fieldsFrom_spaces w [] c hw hnil
      rw [List.append_nil] at this
      rw [this]
      simp [fieldsFrom, closeField])
  rw [h, List.append_nil]

theorem fieldsFrom_trim (l : List Char) :
    fieldsFrom ((l.dropWhile isSpace).reverse.dropWhile isSpace).reverse []
      = fieldsFrom l [] := by
  have hlead : fieldsFrom l [] = fieldsFrom (l.dropWhile isSpace) [] := by
    conv_lhs => rw [← List.takeWhile_append_dropWhile isSpace l]
    exact fieldsFrom_leading _ _ (fun c hc => (List.mem_takeWhile_imp hc))
  rw [hlead]
  generalize l.dropWhile isSpace = m
  have hsplit : m = (m.reverse.dropWhile isSpace).reverse
      ++ (m.reverse.takeWhile isSpace).reverse := by
    rw [← List.reverse_append, List.takeWhile_append_dropWhile, List.reverse_reverse]
  conv_rhs => rw [hsplit]
  rw [fieldsFrom_trailing]
  intro c hc
  exact List.mem_takeWhile_imp (List.mem_reverse.1 hc)

theorem Fields_TrimSpace (s : String) : Fields (TrimSpace s) = Fields s := by
  unfold Fields TrimSpace
  rw [fieldsFrom_trim]

theorem ParseUint32_some (s : String) (n : Nat) (h : ParseUint32 s = some n) :
    s.data ≠ [] ∧ (∀ c ∈ s.data, c.isDigit = true) ∧ n = decimalValue s.data ∧ n < 2 ^ 32 := by
  unfold ParseUint32 at h
  by_cases h1 : s.data = []
  · simp [h1] at h
  · by_cases h2 : s.data.all Char.isDigit = true
    · by_cases h3 : decimalValue s.data < 2 ^ 32
      · rw [if_neg h1, if_pos h2, if_pos h3] at h
        simp only [Option.some.injEq] at h
        subst h
        exact ⟨h1, fun c hc => List.all_eq_true.1 h2 c hc, rfl, h3⟩
      · rw [if_neg h1, if_pos h2, if_neg h3] at h
        cases h
    · rw [if_neg h1, if_neg h2] at h
      cases h

theorem parseMetric_congr (env : GrafanaEnv) (a b : String) (schemas : List Schema)
    (h : Fields (TrimSpace a) = Fields (TrimSpace b)) :
    parseMetric env a schemas = parseMetric env b schemas := by
  unfold parseMetric
  simp only [h]

theorem parseMetric_congr_data (env : GrafanaEnv) (a b : List Char) (schemas : List Schema)
    (h : fieldsFrom a [] = fieldsFrom b []) :
    parseMetric env (String.mk a) schemas = parseMetric env (String.mk b) schemas := by
  apply parseMetric_congr
  rw [Fields_TrimSpace, Fields_TrimSpace]
  unfold Fields
  rw [h]

/-- The result of `parseMetric` on a line with exactly three fields. -/
theorem parseMetric_three (env : GrafanaEnv) (buf : String) (schemas : List Schema)
    (name e1 e2 : String) (h : Fields (TrimSpace buf) = [name, e1, e2]) :
    parseMetric env buf schemas =
      match env.ParseFloat e1 with
      | none => Outcome.ok none
      | some val =>
        match ParseUint32 e2 with
        | none => Outcome.ok none
        | some timestamp =>
          match env.Match schemas name with
          | none => Outcome.panic "couldn't find a schema"
          | some s =>
            match s.Retentions with
            | [] => Outcome.panic "index out of range"
            | retention :: _ =>
              Outcome.ok (some
                { Name := name, Interval := retention.secondsPerPoint, Value := val, Unit := "",
                  Time := (timestamp : Int), TargetType := "gauge", Tags := [], OrgId := 1 }) := by
  unfold parseMetric
  simp only [h]

/-- The result of `parseMetric` on a line that does not have three fields. -/
theorem parseMetric_not_three (env : GrafanaEnv) (buf : String) (schemas : List Schema)
    (h : ∀ name e1 e2, Fields (TrimSpace buf) ≠ [name, e1, e2]) :
    parseMetric env buf schemas = Outcome.ok none := by
  unfold parseMetric
  simp only []

/-- C19: `parseMetric` returns nil unless the trimmed line splits into exactly
three white-space separated fields, the second one parses as a float and the
third one is a non-empty string of decimal digits whose value is below 2^32.
When it returns a record, `Name` is the first field, `Time` the value of the
third field (so `0 ≤ Time < 2^32`), `Interval` the seconds-per-point of the
first retention of the schema `schemas.Match` found for the name, `TargetType`
is "gauge", `OrgId` is 1 and `Tags` is empty.  White space in front of the
line, white space after it, and how much white space stands between two
fields do not change the result. -/
theorem parseMetric_spec (env : GrafanaEnv) (buf : String) (schemas : List Schema) :
    (parseMetric env buf schemas ≠ Outcome.ok none →
      ∃ name e1 e2 val, Fields (TrimSpace buf) = [name, e1, e2] ∧
        env.ParseFloat e1 = some val ∧
        e2.data ≠ [] ∧ (∀ c ∈ e2.data, c.isDigit = true) ∧ decimalValue e2.data < 2 ^ 32) ∧
    (∀ md, parseMetric env buf schemas = Outcome.ok (some md) →
      ∃ name e1 e2 s retention rest, Fields (TrimSpace buf) = [name, e1, e2] ∧
        env.Match schemas name = some s ∧ s.Retentions = retention :: rest ∧
        env.ParseFloat e1 = some md.Value ∧
        md.Name = name ∧ md.Time = (decimalValue e2.data : Nat) ∧
        0 ≤ md.Time ∧ md.Time < 2 ^ 32 ∧
        md.Interval = retention.secondsPerPoint ∧
        md.TargetType = "gauge" ∧ md.OrgId = 1 ∧ md.Tags = []) ∧
    (∀ w l : List Char, (∀ c ∈ w, isSpace c = true) →
      parseMetric env (String.mk (w ++ l)) schemas = parseMetric env (String.mk l) schemas) ∧
    (∀ w l : List Char, (∀ c ∈ w, isSpace c = true) →
      parseMetric env (String.mk (l ++ w)) schemas = parseMetric env (String.mk l) schemas) ∧
    (∀ l1 w1 w2 l2 : List Char, (∀ c ∈ w1, isSpace c = true) → (∀ c ∈ w2, isSpace c = true) →
      w1 ≠ [] → w2 ≠ [] →
      parseMetric env (String.mk (l1 ++ (w1 ++ l2))) schemas
        = parseMetric env (String.mk (l1 ++ (w2 ++ l2))) schemas) := by
  refine ⟨?_, ?_, ?_, ?_, ?_⟩
  · intro hne
    by_cases h3 : ∃ name e1 e2, Fields (TrimSpace buf) = [name, e1, e2]
    · obtain ⟨name, e1, e2, hf⟩ := h3
      rw [parseMetric_three env buf schemas name e1 e2 hf] at hne
      cases hv : env.ParseFloat e1 with
      | none =>
        rw [hv] at hne
        exact absurd rfl hne
      | some val =>
        cases ht : ParseUint32 e2 with
        | none =>
          rw [hv, ht] at hne
          exact absurd rfl hne
        | some ts =>
          obtain ⟨p1, p2, p3, p4⟩ := ParseUint32_some e2 ts ht
          exact ⟨name, e1, e2, val, hf, hv, p1, p2, by rw [← p3]; exact p4⟩
    · exfalso
      apply hne
      apply parseMetric_not_three
      intro name e1 e2 hf
      exact h3 ⟨name, e1, e2, hf⟩
  · intro md hmd
    by_cases h3 : ∃ name e1 e2, Fields (TrimSpace buf) = [name, e1, e2]
    · obtain ⟨name, e1, e2, hf⟩ := h3
      rw [parseMetric_three env buf schemas name e1 e2 hf] at hmd
      cases hv : env.ParseFloat e1 with
      | none =>
        rw [hv] at hmd
        cases hmd
      | some val =>
        cases ht : ParseUint32 e2 with
        | none =>
          rw [hv, ht] at hmd
          cases hmd
        | some ts =>
          cases hm : env.Match schemas name with
          | none =>
            rw [hv, ht, hm] at hmd
            cases hmd
          | some s =>
            cases hr : s.Retentions with
            | nil =>
              rw [hv, ht, hm] at hmd
              simp only [hr] at hmd
              cases hmd
            | cons retention rest =>
              rw [hv, ht, hm] at hmd
              simp only [hr, Outcome.ok.injEq, Option.some.injEq] at hmd
              subst hmd
              obtain ⟨_, _, p3, p4⟩ := ParseUint32_some e2 ts ht
              refine ⟨name, e1, e2, s, retention, rest, hf, hm, hr, hv, rfl, ?_, ?_, ?_,
                rfl, rfl, rfl, rfl⟩
              · show (ts : Int) = (decimalValue e2.data : Nat)
                rw [p3]
              · show (0 : Int) ≤ (ts : Int)
                exact Int.natCast_nonneg ts
              · show (ts : Int) < 2 ^ 32
                exact_mod_cast p4
    · have hnil := parseMetric_not_three env buf schemas
        (fun name e1 e2 hf => h3 ⟨name, e1, e2, hf⟩)
      rw [hnil] at hmd
      cases hmd
  · intro w l hw
    exact parseMetric_congr_data env _ _ schemas (fieldsFrom_leading w l hw)
  · intro w l hw
    exact parseMetric_congr_data env _ _ schemas (fieldsFrom_trailing l w [] hw)
  · intro l1 w1 w2 l2 h1 h2 n1 n2
    exact parseMetric_congr_data env _ _ schemas (fieldsFrom_between l1 w1 w2 l2 [] h1 h2 n1 n2)

/-- A line with a blank in front parses like the plain line, which gives the
record one expects. -/
theorem parseMetric_spec_witness :
    parseMetric sampleGrafana " a.b 1.5 17" sampleSchemas
      = Outcome.ok (some
          { Name := "a.b", Interval := 60, Value := "1.5", Unit := "", Time := 17,
            TargetType := "gauge", Tags := [], OrgId := 1 }) := by
  have h := (parseMetric_spec sampleGrafana "" sampleSchemas).2.2.1 [' '] "a.b 1.5 17".data
    (by decide)
  exact h.trans rfl

end CarbonRelay
